import Mathlib

/-!
# Verification of the generic sorting engine of `trabalho_po_1`

Shallow embedding of `src/src/algoritmos.c` and the timing harness of
`src/src/analise.c`.  Elements are values of an arbitrary type `α`
(the C code is type-erased: a buffer of fixed-stride elements plus a
three-way comparator `CompareFn`).  The comparator is modelled as
`cmp : α → α → Int` (negative / zero / positive, like C).

The global instrumentation state (`contador_comparacoes`,
`contador_trocas`, `contador_movimentacoes`) together with the element
buffer is threaded explicitly through every function as a `SortState`.
C `for`/`while` loops are modelled as structural recursions; loops whose
trip count is not syntactically evident get an explicit fuel argument
that is always instantiated large enough (each recursive step strictly
shrinks the work left, so any sufficiently large fuel computes the same
result as the C loop).

Array indices are natural numbers.  The C code uses `int` indices that
can transiently be negative (`i = inicio - 1` in the Lomuto partition,
`j = i - 1` in insertion sort, `fim = pi - 1` in the quick-sort
recursion); those are represented either by a shifted-by-one natural
counter (`ip1 = i + 1`, `jp1 = j + 1`) or by truncated subtraction,
which is observationally identical at every reachable call site
(a negative C bound and the truncated-to-0 bound both make the guard
false in the same way).
-/

set_option maxHeartbeats 1000000

namespace Algoritmos

/-- The process-global instrumentation state of `algoritmos.c` plus the
element buffer being sorted: `contador_comparacoes`, `contador_trocas`,
`contador_movimentacoes` and the caller's buffer. -/
structure SortState (α : Type) where
  arr : List α
  comparacoes : ℕ
  trocas : ℕ
  movimentacoes : ℕ
  deriving Repr, DecidableEq

variable {α : Type} [Inhabited α]

/-- Read `base + i * elem_size` (out-of-range reads never happen on the
reachable call sites; they return `default`). -/
def getE (l : List α) (i : ℕ) : α := l.getD i default

/-- Write `base + i * elem_size`. -/
def setE (l : List α) (i : ℕ) (a : α) : List α := l.set i a

/-- Wrapper `comparar_e_contar`: increments `contador_comparacoes` and delegates
to the current comparison function. -/
def comparar (cmp : α → α → Int) (a b : α) (s : SortState α) : Int × SortState α :=
  (cmp a b, { s with comparacoes := s.comparacoes + 1 })

/-- Primitive `swap_elements` (successful-allocation case): the classic 3-step
byte swap of elements `i` and `j`; bumps `contador_trocas` by 1 and
`contador_movimentacoes` by 3. -/
def swap_elements (i j : ℕ) (s : SortState α) : SortState α :=
  let a := getE s.arr i
  let b := getE s.arr j
  { s with
    arr := setE (setE s.arr i b) j a
    trocas := s.trocas + 1
    movimentacoes := s.movimentacoes + 3 }

/-- Variant of `swap_elements` with the allocation outcome of its temporary buffer
made explicit: on allocation failure the C function returns before
touching the data or the counters. -/
def swap_elementsA (allocOk : Bool) (i j : ℕ) (s : SortState α) : SortState α :=
  if allocOk then swap_elements i j s else s

/-- Generic upward `for` loop: runs `body i`, `body (i+1)`, …,
`count` iterations in total. -/
def loopUp {σ : Type _} (body : ℕ → σ → σ) : ℕ → ℕ → σ → σ
  | 0, _, x => x
  | c + 1, i, x => loopUp body c (i + 1) (body i x)

/-- Generic downward `for` loop: runs `body i`, `body (i-1)`, …,
`count` iterations in total. -/
def loopDown {σ : Type _} (body : ℕ → σ → σ) : ℕ → ℕ → σ → σ
  | 0, _, x => x
  | c + 1, i, x => loopDown body c (i - 1) (body i x)

/- ==============================================================
 * shaker_sort_naive  (algoritmos.c lines 408–435)
 * ============================================================== -/

/-- Body of the left-to-right pass of `shaker_sort_naive`:
compare `arr[i]` with `arr[i+1]`, swap when out of order, record
whether a swap happened. -/
def shakerFwdBody (cmp : α → α → Int) (i : ℕ) : SortState α × Bool → SortState α × Bool
  | (s, houve) =>
    let (r, s1) := comparar cmp (getE s.arr i) (getE s.arr (i + 1)) s
    if r > 0 then (swap_elements i (i + 1) s1, true) else (s1, houve)

/-- Body of the right-to-left pass of `shaker_sort_naive` and
`shaker_sort_optimized`: compare `arr[i]` with `arr[i-1]`, swap when
out of order. -/
def shakerBwdBody (cmp : α → α → Int) (i : ℕ) : SortState α × Bool → SortState α × Bool
  | (s, houve) =>
    let (r, s1) := comparar cmp (getE s.arr i) (getE s.arr (i - 1)) s
    if r < 0 then (swap_elements i (i - 1) s1, true) else (s1, houve)

/-- The `pass` loop of `shaker_sort_naive`: the C loop header is
`for (pass = 0; pass < (n-1)/2; pass++)` with an early exit when a full
bidirectional cycle performs no swap.  The first argument counts the
passes still allowed by the loop header. -/
def shakerNaiveLoop (cmp : α → α → Int) (n : ℕ) : ℕ → ℕ → SortState α → SortState α
  | 0, _, s => s
  | rest + 1, pass, s =>
    let p := loopUp (shakerFwdBody cmp) (n - pass - 1 - pass) pass (s, false)
    let q := loopDown (shakerBwdBody cmp) (n - pass - 2 - pass) (n - pass - 2) p
    if q.2 then shakerNaiveLoop cmp n rest (pass + 1) q.1 else q.1

/-- Entry point `shaker_sort_naive`. -/
def shaker_sort_naive (cmp : α → α → Int) (n : ℕ) (s : SortState α) : SortState α :=
  shakerNaiveLoop cmp n ((n - 1) / 2) 0 s

/- ==============================================================
 * selection_sort_optimized (Bingo Sort)  (algoritmos.c lines 612–691)
 * ============================================================== -/

/-- Body of the initial scan of `selection_sort_optimized`: updates the
current minimum (`bingo`) and the candidate next-larger value
(`proximo_bingo`).  The C `else if` re-invokes `comparar_e_contar` and
short-circuits `&&`, which the nested `if`s reproduce exactly. -/
def bingoScanBody (cmp : α → α → Int) (i : ℕ) :
    SortState α × α × α → SortState α × α × α
  | (s, bingo, proximo) =>
    let (r1, s1) := comparar cmp (getE s.arr i) bingo s
    if r1 < 0 then (s1, getE s1.arr i, bingo)
    else
      let (r2, s2) := comparar cmp (getE s1.arr i) bingo s1
      if r2 > 0 then
        let (r3, s3) := comparar cmp (getE s2.arr i) proximo s2
        if r3 < 0 then (s3, bingo, getE s3.arr i) else (s3, bingo, proximo)
      else (s2, bingo, proximo)

/-- Body of the relocation pass of Bingo Sort: every element equal to
`bingo` is swapped to position `inicio` (which then advances); other
elements may lower `proximo_bingo`. -/
def bingoMoveBody (cmp : α → α → Int) (i : ℕ) :
    SortState α × ℕ × α × α → SortState α × ℕ × α × α
  | (s, inicio, bingo, proximo) =>
    let (r1, s1) := comparar cmp (getE s.arr i) bingo s
    if r1 = 0 then (swap_elements inicio i s1, inicio + 1, bingo, proximo)
    else
      let (r2, s2) := comparar cmp (getE s1.arr i) proximo s1
      if r2 < 0 then (s2, inicio, bingo, getE s2.arr i) else (s2, inicio, bingo, proximo)

/-- Body of the next-distinct-value search of Bingo Sort.  `!encontrou`
short-circuits the `||`, so the second comparison only runs once a
candidate has been found. -/
def bingoNextBody (cmp : α → α → Int) (i : ℕ) :
    SortState α × α × α × Bool → SortState α × α × α × Bool
  | (s, bingo, proximo, encontrou) =>
    let (r1, s1) := comparar cmp (getE s.arr i) bingo s
    if r1 > 0 then
      if encontrou then
        let (r2, s2) := comparar cmp (getE s1.arr i) proximo s1
        if r2 < 0 then (s2, bingo, getE s2.arr i, true) else (s2, bingo, proximo, true)
      else (s1, bingo, getE s1.arr i, true)
    else (s1, bingo, proximo, encontrou)

/-- Main `while (inicio < n - 1)` loop of Bingo Sort.  Each iteration
either advances `inicio` or breaks, so `n` iterations of fuel always
suffice. -/
def bingoMainLoop (cmp : α → α → Int) (n : ℕ) :
    ℕ → ℕ → α → α → SortState α → SortState α
  | 0, _, _, _, s => s
  | fuel + 1, inicio, bingo, proximo, s =>
    if inicio < n - 1 then
      let p := loopUp (bingoMoveBody cmp) (n - inicio) inicio (s, inicio, bingo, proximo)
      if p.2.1 = inicio then p.1
      else
        let q := loopUp (bingoNextBody cmp) (n - p.2.1) p.2.1 (p.1, p.2.2.2, p.2.2.2, false)
        bingoMainLoop cmp n fuel p.2.1 p.2.2.2 q.2.2.1 q.1
    else s

/-- Bingo Sort (`selection_sort_optimized`), successful-allocation
path.  When `n = 0` the C code reads `base[0]` into the scratch
buffers; the model mirrors this with the `default` value, which is
irrelevant because the main loop then does nothing. -/
def selection_sort_optimized (cmp : α → α → Int) (n : ℕ) (s : SortState α) : SortState α :=
  let p := loopUp (bingoScanBody cmp) (n - 1) 1 (s, getE s.arr 0, getE s.arr 0)
  bingoMainLoop cmp n n 0 p.2.1 p.2.2 p.1

/- ==============================================================
 * insertion_sort_naive / insertion_sort_optimized
 * (algoritmos.c lines 349-378 and 570-594)
 * ============================================================== -/

/-- Inner `while` of both insertion sorts, shifting elements greater
than `key` one slot to the right.  `jp1` is `j + 1` (the C `j` reaches
`-1`; the shifted counter stays in `ℕ`).  The fuel always equals the
initial `jp1`, which is exactly the number of iterations after which
`j` would drop below `0` anyway, so exhaustion coincides with the
`j >= 0` exit of the C loop. -/
def insertionWhile (cmp : α → α → Int) (key : α) : ℕ → ℕ → SortState α → ℕ × SortState α
  | 0, jp1, s => (jp1, s)
  | fuel + 1, jp1, s =>
    if 1 ≤ jp1 then
      let (r, s1) := comparar cmp (getE s.arr (jp1 - 1)) key s
      if r > 0 then
        insertionWhile cmp key fuel (jp1 - 1)
          { s1 with arr := setE s1.arr jp1 (getE s1.arr (jp1 - 1))
                    movimentacoes := s1.movimentacoes + 1 }
      else (jp1, s1)
    else (jp1, s)

/-- Body of the outer `for` of both insertion sorts: save `arr[i]` into
the key buffer (one counted movement), shift, insert the key back (one
counted movement).  The naive and optimized C bodies are token-for-token
the same computation (the naive one writes the `&&` of the loop guard
as a nested `if`/`break`). -/
def insertionBody (cmp : α → α → Int) (i : ℕ) (s : SortState α) : SortState α :=
  let key := getE s.arr i
  let p := insertionWhile cmp key i i { s with movimentacoes := s.movimentacoes + 1 }
  { p.2 with arr := setE p.2.arr p.1 key, movimentacoes := p.2.movimentacoes + 1 }

/-- Entry point `insertion_sort_naive`. -/
def insertion_sort_naive (cmp : α → α → Int) (n : ℕ) (s : SortState α) : SortState α :=
  loopUp (insertionBody cmp) (n - 1) 1 s

/-- Entry point `insertion_sort_optimized` (same computation as the
naive variant; the C sources differ only in comment density and in
writing the shift guard with `&&` instead of `if`/`break`). -/
def insertion_sort_optimized (cmp : α → α → Int) (n : ℕ) (s : SortState α) : SortState α :=
  loopUp (insertionBody cmp) (n - 1) 1 s

/- ==============================================================
 * bubble_sort_naive / bubble_sort_optimized
 * (algoritmos.c lines 380-391 and 596-610)
 * ============================================================== -/

/-- Body of the inner `for` of `bubble_sort_naive` (no early-exit
flag). -/
def bubbleNaiveBody (cmp : α → α → Int) (j : ℕ) (s : SortState α) : SortState α :=
  let (r, s1) := comparar cmp (getE s.arr j) (getE s.arr (j + 1)) s
  if r > 0 then swap_elements j (j + 1) s1 else s1

/-- Entry point `bubble_sort_naive`: the full `n-1` passes run
unconditionally. -/
def bubble_sort_naive (cmp : α → α → Int) (n : ℕ) (s : SortState α) : SortState α :=
  loopUp (fun i t => loopUp (bubbleNaiveBody cmp) (n - i - 1) 0 t) (n - 1) 0 s

/-- Body of the inner `for` of `bubble_sort_optimized`, tracking the
`houve_troca` flag. -/
def bubbleOptBody (cmp : α → α → Int) (j : ℕ) : SortState α × Bool → SortState α × Bool
  | (s, houve) =>
    let (r, s1) := comparar cmp (getE s.arr j) (getE s.arr (j + 1)) s
    if r > 0 then (swap_elements j (j + 1) s1, true) else (s1, houve)

/-- Outer pass loop of `bubble_sort_optimized` with the early exit when
a pass performs no swap.  The first argument counts the passes still
allowed by the `i < n - 1` loop header. -/
def bubbleOptLoop (cmp : α → α → Int) (n : ℕ) : ℕ → ℕ → SortState α → SortState α
  | 0, _, s => s
  | rest + 1, i, s =>
    let p := loopUp (bubbleOptBody cmp) (n - i - 1) 0 (s, false)
    if p.2 then bubbleOptLoop cmp n rest (i + 1) p.1 else p.1

/-- Entry point `bubble_sort_optimized`. -/
def bubble_sort_optimized (cmp : α → α → Int) (n : ℕ) (s : SortState α) : SortState α :=
  bubbleOptLoop cmp n (n - 1) 0 s

/- ==============================================================
 * selection_sort_naive  (algoritmos.c lines 393-406)
 * ============================================================== -/

/-- Body of the minimum scan of `selection_sort_naive`. -/
def selMinBody (cmp : α → α → Int) (j : ℕ) : SortState α × ℕ → SortState α × ℕ
  | (s, minIdx) =>
    let (r, s1) := comparar cmp (getE s.arr j) (getE s.arr minIdx) s
    if r < 0 then (s1, j) else (s1, minIdx)

/-- Entry point `selection_sort_naive`: scan for the minimum of the
unsorted suffix and swap it into place (the swap is unconditional, even
when `min_idx == i`). -/
def selection_sort_naive (cmp : α → α → Int) (n : ℕ) (s : SortState α) : SortState α :=
  loopUp (fun i t =>
    let p := loopUp (selMinBody cmp) (n - (i + 1)) (i + 1) (t, i)
    swap_elements i p.2 p.1) (n - 1) 0 s

/- ==============================================================
 * shaker_sort_optimized  (algoritmos.c lines 693-720)
 * ============================================================== -/

/-- Main `while (houve_troca && inicio < fim)` loop of
`shaker_sort_optimized`.  Each iteration moves both boundaries inward,
so `n` iterations of fuel always suffice. -/
def shakerOptLoop (cmp : α → α → Int) : ℕ → ℕ → ℕ → Bool → SortState α → SortState α
  | 0, _, _, _, s => s
  | fuel + 1, inicio, fim, houve, s =>
    if houve ∧ inicio < fim then
      let p := loopUp (shakerFwdBody cmp) (fim - inicio) inicio (s, false)
      if p.2 = false then p.1
      else
        let q := loopDown (shakerBwdBody cmp) (fim - 1 - inicio) (fim - 1) (p.1, false)
        shakerOptLoop cmp fuel (inicio + 1) (fim - 1) q.2 q.1
    else s

/-- Entry point `shaker_sort_optimized`. -/
def shaker_sort_optimized (cmp : α → α → Int) (n : ℕ) (s : SortState α) : SortState α :=
  shakerOptLoop cmp n 0 (n - 1) true s

/- ==============================================================
 * shell_sort_naive / shell_sort_optimized
 * (algoritmos.c lines 437-468 and 722-755)
 * ============================================================== -/

/-- Inner gapped-shift `while` of both shell sorts (the naive variant
writes the guard as a nested `if`/`break`, the optimized one as `&&`;
the computation is the same).  The fuel equals the initial `j`, which
bounds the `j -= gap` iterations for every `gap ≥ 1`, and exhaustion
can only happen once `j < gap`, i.e. at the natural exit. -/
def shellInnerWhile (cmp : α → α → Int) (gap : ℕ) (temp : α) :
    ℕ → ℕ → SortState α → ℕ × SortState α
  | 0, j, s => (j, s)
  | fuel + 1, j, s =>
    if gap ≤ j then
      let (r, s1) := comparar cmp (getE s.arr (j - gap)) temp s
      if r > 0 then
        shellInnerWhile cmp gap temp fuel (j - gap)
          { s1 with arr := setE s1.arr j (getE s1.arr (j - gap))
                    movimentacoes := s1.movimentacoes + 1 }
      else (j, s1)
    else (j, s)

/-- Gapped insertion pass shared by both shell sorts: for each
`i ∈ [gap, n)`, save `arr[i]` (one counted movement), shift greater
elements `gap` slots rightwards, re-insert (one counted movement). -/
def shellGapBody (cmp : α → α → Int) (n gap : ℕ) (s : SortState α) : SortState α :=
  loopUp (fun i t =>
    let temp := getE t.arr i
    let p := shellInnerWhile cmp gap temp i i { t with movimentacoes := t.movimentacoes + 1 }
    { p.2 with arr := setE p.2.arr p.1 temp, movimentacoes := p.2.movimentacoes + 1 })
    (n - gap) gap s

/-- Halving gap loop of `shell_sort_naive` (`gap = n/2, n/4, …, 1`).
The gap halves each iteration, so `n` iterations of fuel always
suffice. -/
def shellNaiveGapLoop (cmp : α → α → Int) (n : ℕ) : ℕ → ℕ → SortState α → SortState α
  | 0, _, s => s
  | fuel + 1, gap, s =>
    if gap > 0 then shellNaiveGapLoop cmp n fuel (gap / 2) (shellGapBody cmp n gap s) else s

/-- Entry point `shell_sort_naive`. -/
def shell_sort_naive (cmp : α → α → Int) (n : ℕ) (s : SortState α) : SortState α :=
  shellNaiveGapLoop cmp n n (n / 2) s

/-- Construction of the largest Knuth gap `< n/3`
(`gap = 3*gap + 1` grown upward from 1). -/
def knuthGap (n : ℕ) : ℕ → ℕ → ℕ
  | 0, gap => gap
  | fuel + 1, gap => if gap < n / 3 then knuthGap n fuel (3 * gap + 1) else gap

/-- Descending Knuth gap loop of `shell_sort_optimized`
(`gap, gap/3, …, 1`). -/
def shellOptGapLoop (cmp : α → α → Int) (n : ℕ) : ℕ → ℕ → SortState α → SortState α
  | 0, _, s => s
  | fuel + 1, gap, s =>
    if 1 ≤ gap then shellOptGapLoop cmp n fuel (gap / 3) (shellGapBody cmp n gap s) else s

/-- Entry point `shell_sort_optimized`. -/
def shell_sort_optimized (cmp : α → α → Int) (n : ℕ) (s : SortState α) : SortState α :=
  shellOptGapLoop cmp n n (knuthGap n n 1) s

/- ==============================================================
 * quick_sort_naive / partition_naive  (algoritmos.c lines 470-510)
 * quick_sort_optimized / partition_optimized / mediana_de_tres
 * (algoritmos.c lines 318-343 and 757-797)
 * ============================================================== -/

/-- Lomuto scan shared by both partitions.  `ip1` is `i + 1` (the C `i`
starts at `inicio - 1`, which can be `-1`); a `cmp < 0` hit increments
`i` and swaps `arr[i]` with `arr[j]`, i.e. swaps at index `ip1` and
then advances `ip1`. -/
def partitionLoop (cmp : α → α → Int) (pivo : α) :
    ℕ → ℕ → ℕ → SortState α → ℕ × SortState α
  | 0, _, ip1, s => (ip1, s)
  | c + 1, j, ip1, s =>
    let (r, s1) := comparar cmp (getE s.arr j) pivo s
    if r < 0 then partitionLoop cmp pivo c (j + 1) (ip1 + 1) (swap_elements ip1 j s1)
    else partitionLoop cmp pivo c (j + 1) ip1 s1

/-- Lomuto partition `partition_naive` (successful pivot allocation):
the pivot value is copied from `arr[fim]` (an uncounted `memcpy` into
the pivot buffer), elements smaller than it are swapped forward, and
the pivot is finally swapped into position `i + 1`, which is
returned. -/
def partition_naive (cmp : α → α → Int) (inicio fim : ℕ) (s : SortState α) :
    ℕ × SortState α :=
  let p := partitionLoop cmp (getE s.arr fim) (fim - inicio) inicio inicio s
  (p.1, swap_elements p.1 fim p.2)

/-- Lomuto partition `partition_optimized`: identical to
`partition_naive` except for the allocation-failure diagnostics. -/
def partition_optimized (cmp : α → α → Int) (inicio fim : ℕ) (s : SortState α) :
    ℕ × SortState α :=
  let p := partitionLoop cmp (getE s.arr fim) (fim - inicio) inicio inicio s
  (p.1, swap_elements p.1 fim p.2)

/-- Recursive `quick_sort_naive` over the inclusive range
`[inicio, fim]`.  The fuel bounds the recursion depth; since every
recursive call strictly shrinks the range, `n + 1` fuel is always
enough for a buffer of `n` elements.  A call on `fim = pi - 1` with
`pi = 0` is the C call on `fim = -1`; the truncated `fim = 0` makes
`inicio < fim` false in exactly the same cases. -/
def quick_sort_naive (cmp : α → α → Int) : ℕ → ℕ → ℕ → SortState α → SortState α
  | 0, _, _, s => s
  | fuel + 1, inicio, fim, s =>
    if inicio < fim then
      let p := partition_naive cmp inicio fim s
      quick_sort_naive cmp fuel (p.1 + 1) fim (quick_sort_naive cmp fuel inicio (p.1 - 1) p.2)
    else s

/-- Median-of-three helper `mediana_de_tres`: conditionally sorts the
elements at `inicio`, `meio`, `fim` (3 counted comparisons, up to 3
counted swaps) and then swaps the median from `meio` into the
penultimate position `fim - 1`. -/
def mediana_de_tres (cmp : α → α → Int) (inicio fim : ℕ) (s : SortState α) : SortState α :=
  let meio := inicio + (fim - inicio) / 2
  let (r1, s1) := comparar cmp (getE s.arr meio) (getE s.arr inicio) s
  let s2 := if r1 < 0 then swap_elements inicio meio s1 else s1
  let (r2, s3) := comparar cmp (getE s2.arr fim) (getE s2.arr inicio) s2
  let s4 := if r2 < 0 then swap_elements inicio fim s3 else s3
  let (r3, s5) := comparar cmp (getE s4.arr fim) (getE s4.arr meio) s4
  let s6 := if r3 < 0 then swap_elements meio fim s5 else s5
  swap_elements meio (fim - 1) s6

/-- Recursive `quick_sort_optimized`: median-of-three preconditioning
for ranges of length ≥ 4 (`fim - inicio >= 3`), then the same Lomuto
partition and recursion as the naive variant. -/
def quick_sort_optimized (cmp : α → α → Int) : ℕ → ℕ → ℕ → SortState α → SortState α
  | 0, _, _, s => s
  | fuel + 1, inicio, fim, s =>
    if inicio < fim then
      let p := partition_optimized cmp inicio fim
        (if 3 ≤ fim - inicio then mediana_de_tres cmp inicio fim s else s)
      quick_sort_optimized cmp fuel (p.1 + 1) fim (quick_sort_optimized cmp fuel inicio (p.1 - 1) p.2)
    else s

/- ==============================================================
 * heap_sort_naive / heapify_naive  (algoritmos.c lines 512-564)
 * heap_sort_optimized / heapify_optimized  (lines 799-844)
 * ============================================================== -/

/-- Recursive `heapify_naive` (sift-down) on the heap prefix of size
`n` rooted at `i`.  The recursion index strictly increases, so fuel `n`
is always enough; comparisons against the two children are
bounds-checked against the heap size first. -/
def heapify_naive (cmp : α → α → Int) : ℕ → ℕ → ℕ → SortState α → SortState α
  | 0, _, _, s => s
  | fuel + 1, n, i, s =>
    let esquerda := 2 * i + 1
    let direita := 2 * i + 2
    let (maior1, s1) :=
      if esquerda < n then
        let (r, s') := comparar cmp (getE s.arr esquerda) (getE s.arr i) s
        if r > 0 then (esquerda, s') else (i, s')
      else (i, s)
    let (maior2, s2) :=
      if direita < n then
        let (r, s') := comparar cmp (getE s1.arr direita) (getE s1.arr maior1) s1
        if r > 0 then (direita, s') else (maior1, s')
      else (maior1, s1)
    if maior2 ≠ i then heapify_naive cmp fuel n maior2 (swap_elements i maior2 s2) else s2

/-- Recursive `heapify_optimized`: the C body differs from the naive
one only in writing the bounds check and the comparison with `&&`
instead of nested `if`s — the same comparisons in the same order. -/
def heapify_optimized (cmp : α → α → Int) : ℕ → ℕ → ℕ → SortState α → SortState α
  | 0, _, _, s => s
  | fuel + 1, n, i, s =>
    let esquerda := 2 * i + 1
    let direita := 2 * i + 2
    let (maior1, s1) :=
      if esquerda < n then
        let (r, s') := comparar cmp (getE s.arr esquerda) (getE s.arr i) s
        if r > 0 then (esquerda, s') else (i, s')
      else (i, s)
    let (maior2, s2) :=
      if direita < n then
        let (r, s') := comparar cmp (getE s1.arr direita) (getE s1.arr maior1) s1
        if r > 0 then (direita, s') else (maior1, s')
      else (maior1, s1)
    if maior2 ≠ i then heapify_optimized cmp fuel n maior2 (swap_elements i maior2 s2) else s2

/-- Entry point `heap_sort_naive`: bottom-up heap construction
(`i = n/2 - 1` down to `0`) followed by the extraction loop
(`i = n - 1` down to `0`, inclusive: the last iteration swaps the root
with itself). -/
def heap_sort_naive (cmp : α → α → Int) (n : ℕ) (s : SortState α) : SortState α :=
  let s1 := loopDown (fun i t => heapify_naive cmp n n i t) (n / 2) (n / 2 - 1) s
  loopDown (fun i t => heapify_naive cmp n i 0 (swap_elements 0 i t)) n (n - 1) s1

/-- Entry point `heap_sort_optimized`: same two phases as the naive
variant, delegating to `heapify_optimized`. -/
def heap_sort_optimized (cmp : α → α → Int) (n : ℕ) (s : SortState α) : SortState α :=
  let s1 := loopDown (fun i t => heapify_optimized cmp n n i t) (n / 2) (n / 2 - 1) s
  loopDown (fun i t => heapify_optimized cmp n i 0 (swap_elements 0 i t)) n (n - 1) s1

/- ==============================================================
 * Allocation-failure entry behaviour
 * (insertion/shell: silent early return; partition: fatal)
 * ============================================================== -/

/-- Entry of `insertion_sort_naive` with the allocation outcome of the
key buffer made explicit: `if (!key) return;`. -/
def insertion_sort_naiveA (allocOk : Bool) (cmp : α → α → Int) (n : ℕ)
    (s : SortState α) : SortState α :=
  if allocOk then insertion_sort_naive cmp n s else s

/-- Entry of `insertion_sort_optimized` with the allocation outcome
made explicit. -/
def insertion_sort_optimizedA (allocOk : Bool) (cmp : α → α → Int) (n : ℕ)
    (s : SortState α) : SortState α :=
  if allocOk then insertion_sort_optimized cmp n s else s

/-- Entry of `shell_sort_naive` with the allocation outcome of the temp
buffer made explicit. -/
def shell_sort_naiveA (allocOk : Bool) (cmp : α → α → Int) (n : ℕ)
    (s : SortState α) : SortState α :=
  if allocOk then shell_sort_naive cmp n s else s

/-- Entry of `shell_sort_optimized` with the allocation outcome made
explicit. -/
def shell_sort_optimizedA (allocOk : Bool) (cmp : α → α → Int) (n : ℕ)
    (s : SortState α) : SortState α :=
  if allocOk then shell_sort_optimized cmp n s else s

/-- Outcome of a `partition_*` call with the allocation outcome of the
pivot buffer made explicit: on failure the process prints a diagnostic
on `stderr` and terminates via `exit(EXIT_FAILURE)`, modelled as an
`Except.error` carrying the diagnostic. -/
def partition_naiveA (allocOk : Bool) (cmp : α → α → Int) (inicio fim : ℕ)
    (s : SortState α) : Except String (ℕ × SortState α) :=
  if allocOk then .ok (partition_naive cmp inicio fim s)
  else .error "ERRO CRITICO: Falha na alocacao de memoria para pivo no Quick Sort"

/-- Outcome of `partition_optimized` with the allocation outcome made
explicit. -/
def partition_optimizedA (allocOk : Bool) (cmp : α → α → Int) (inicio fim : ℕ)
    (s : SortState α) : Except String (ℕ × SortState α) :=
  if allocOk then .ok (partition_optimized cmp inicio fim s)
  else .error "ERRO CRITICO: Falha na alocacao de memoria para pivo no Quick Sort otimizado"

/-- The integer comparator used by the repository's integer datasets:
negative / zero / positive, like C's three-way comparison. -/
def cmpInt (a b : Int) : Int := if a < b then -1 else if b < a then 1 else 0

end Algoritmos

/- ==============================================================
 * Basic lemmas about the primitives
 * ============================================================== -/

namespace Algoritmos

variable {α : Type} [Inhabited α]

theorem getE_setE_self {l : List α} {i : ℕ} (hi : i < l.length) (a : α) :
    getE (setE l i a) i = a := by
  rw [getE, setE, List.getD_eq_getElem?_getD, List.getElem?_set_self hi]
  rfl

theorem getE_setE_ne {l : List α} {i j : ℕ} (h : i ≠ j) (a : α) :
    getE (setE l i a) j = getE l j := by
  rw [getE, setE, List.getD_eq_getElem?_getD, List.getElem?_set_ne h, getE,
    List.getD_eq_getElem?_getD]

theorem setE_getE (l : List α) (i : ℕ) : setE l i (getE l i) = l := by
  apply List.ext_getElem?
  intro j
  rw [setE, List.getElem?_set]
  split_ifs with h1 h2
  · subst h1
    rw [getE, List.getD_eq_getElem?_getD, List.getElem?_eq_getElem h2]
    rfl
  · subst h1
    exact (List.getElem?_eq_none (by omega)).symm
  · rfl

omit [Inhabited α] in
theorem length_setE (l : List α) (i : ℕ) (a : α) : (setE l i a).length = l.length :=
  List.length_set l i a

/-- A degenerate swap of an element with itself leaves the buffer
unchanged and only bumps the counters. -/
theorem swap_elements_self (i : ℕ) (s : SortState α) :
    swap_elements i i s =
      { s with trocas := s.trocas + 1, movimentacoes := s.movimentacoes + 3 } := by
  simp [swap_elements, setE_getE]

theorem length_swap (i j : ℕ) (s : SortState α) :
    (swap_elements i j s).arr.length = s.arr.length := by
  simp [swap_elements, length_setE]

/-- Generic preservation of a predicate along an upward loop. -/
theorem loopUp_pres {σ : Type _} (Q : σ → Prop) {body : ℕ → σ → σ}
    (hbody : ∀ i x, Q x → Q (body i x)) :
    ∀ (c i : ℕ) (x : σ), Q x → Q (loopUp body c i x) := by
  intro c
  induction c with
  | zero => intro i x hx; exact hx
  | succ c ih => intro i x hx; exact ih (i + 1) (body i x) (hbody i x hx)

/-- Range-aware preservation of a predicate along an upward loop:
the body hypothesis is only needed for the indices the loop visits. -/
theorem loopUp_pres_of {σ : Type _} (Q : σ → Prop) {body : ℕ → σ → σ} :
    ∀ (c i : ℕ), (∀ k x, i ≤ k → k < i + c → Q x → Q (body k x)) →
      ∀ x, Q x → Q (loopUp body c i x) := by
  intro c
  induction c with
  | zero => intro i _ x hx; exact hx
  | succ c ih =>
    intro i hk x hx
    exact ih (i + 1) (fun k y h1 h2 hy => hk k y (by omega) (by omega) hy)
      (body i x) (hk i x (Nat.le_refl i) (by omega) hx)

/-- Range-aware preservation of a predicate along a downward loop. -/
theorem loopDown_pres_of {σ : Type _} (Q : σ → Prop) {body : ℕ → σ → σ} :
    ∀ (c i : ℕ), (∀ k x, k ≤ i → i < k + c → Q x → Q (body k x)) →
      ∀ x, Q x → Q (loopDown body c i x) := by
  intro c
  induction c with
  | zero => intro i _ x hx; exact hx
  | succ c ih =>
    intro i hk x hx
    exact ih (i - 1) (fun k y h1 h2 hy => hk k y (by omega) (by omega) hy)
      (body i x) (hk i x (Nat.le_refl i) (by omega) hx)

/-- The last iteration a downward loop executes has index `i - c`. -/
theorem loopDown_last {σ : Type _} (body : ℕ → σ → σ) :
    ∀ (c i : ℕ) (x : σ),
      loopDown body (c + 1) i x = body (i - c) (loopDown body c i x) := by
  intro c
  induction c with
  | zero => intro i x; rfl
  | succ c ih =>
    intro i x
    have h1 : loopDown body (c + 1 + 1) i x = loopDown body (c + 1) (i - 1) (body i x) := rfl
    rw [h1, ih (i - 1) (body i x)]
    have h2 : i - 1 - c = i - (c + 1) := by omega
    rw [h2]
    rfl

end Algoritmos

/- ==============================================================
 * Claims C1, C2, C3: concrete divergences between the code and the
 * correctness/performance properties stated in the specification.
 * ============================================================== -/

namespace Algoritmos

/-- C1: the specification demands that every one of the 14 sort entry
points produce a non-decreasing permutation of its input.  The code
violates this: `shaker_sort_naive` caps the number of bidirectional
passes at `(n-1)/2`, which leaves the two middle elements of
`[4,3,2,1]` unsorted (`[1,3,2,4]`), and `selection_sort_optimized`
(Bingo Sort) never advances its `bingo` value when the minimum sits at
index 0 (its initial scan can then never find the second-smallest
value), leaving `[1,3,2]` untouched.  In both outputs an adjacent pair
compares strictly out of order. -/
theorem claim1_counterexample_eval :
    (shaker_sort_naive cmpInt 4 ⟨[4, 3, 2, 1], 0, 0, 0⟩).arr = [1, 3, 2, 4] ∧
    cmpInt (getE (shaker_sort_naive cmpInt 4 ⟨[4, 3, 2, 1], 0, 0, 0⟩).arr 1)
        (getE (shaker_sort_naive cmpInt 4 ⟨[4, 3, 2, 1], 0, 0, 0⟩).arr 2) > 0 ∧
    (selection_sort_optimized cmpInt 3 ⟨[1, 3, 2], 0, 0, 0⟩).arr = [1, 3, 2] ∧
    cmpInt (getE (selection_sort_optimized cmpInt 3 ⟨[1, 3, 2], 0, 0, 0⟩).arr 1)
        (getE (selection_sort_optimized cmpInt 3 ⟨[1, 3, 2], 0, 0, 0⟩).arr 2) > 0 := by
  decide

/-- C2: `mediana_de_tres` does order the three samples and does swap
the median into position `fim - 1` — on the sorted buffer
`[1,2,3,4,5]` (range `[0,4]`, samples `1,3,5`) it produces
`[1,2,4,3,5]` with the median `3` at index `3 = fim - 1`.  But the
immediately following `partition_optimized` copies its pivot from
`arr[fim]`, which now holds `5`, the *largest* of the three samples,
not the median; consequently the partition returns pivot index
`4 = fim` (the degenerate split the median was supposed to avoid). -/
theorem claim2_pivot_divergence_eval :
    (mediana_de_tres cmpInt 0 4 ⟨[1, 2, 3, 4, 5], 0, 0, 0⟩).arr = [1, 2, 4, 3, 5] ∧
    getE (mediana_de_tres cmpInt 0 4 ⟨[1, 2, 3, 4, 5], 0, 0, 0⟩).arr 3 = 3 ∧
    getE (mediana_de_tres cmpInt 0 4 ⟨[1, 2, 3, 4, 5], 0, 0, 0⟩).arr 4 = 5 ∧
    (partition_optimized cmpInt 0 4 (mediana_de_tres cmpInt 0 4 ⟨[1, 2, 3, 4, 5], 0, 0, 0⟩)).1
      = 4 := by
  decide

/-- C3: the specification claims the optimized quick sort performs
strictly fewer comparisons than the naive one on every already-sorted
input of size ≥ 8.  On the sorted 8-element buffer `[1,…,8]` the naive
variant performs 28 comparisons while the optimized one performs 31
(the 3 extra median comparisons per level buy nothing because the
partition takes its pivot from `arr[fim]`, the largest of the three
samples — see C2).  The counts are fuel-independent: a recursion-depth
budget of 9 and of 99 yield the same run. -/
theorem claim3_comparison_divergence_eval :
    (quick_sort_naive cmpInt 9 0 7 ⟨[1, 2, 3, 4, 5, 6, 7, 8], 0, 0, 0⟩).comparacoes = 28 ∧
    (quick_sort_optimized cmpInt 9 0 7 ⟨[1, 2, 3, 4, 5, 6, 7, 8], 0, 0, 0⟩).comparacoes = 31 ∧
    (quick_sort_naive cmpInt 99 0 7 ⟨[1, 2, 3, 4, 5, 6, 7, 8], 0, 0, 0⟩).comparacoes = 28 ∧
    (quick_sort_optimized cmpInt 99 0 7 ⟨[1, 2, 3, 4, 5, 6, 7, 8], 0, 0, 0⟩).comparacoes = 31 ∧
    ¬ ((quick_sort_optimized cmpInt 9 0 7 ⟨[1, 2, 3, 4, 5, 6, 7, 8], 0, 0, 0⟩).comparacoes
        < (quick_sort_naive cmpInt 9 0 7 ⟨[1, 2, 3, 4, 5, 6, 7, 8], 0, 0, 0⟩).comparacoes) := by
  decide

end Algoritmos

/- ==============================================================
 * Claims C5, C8, C9, C10: the swap primitive, allocation-failure
 * behaviour, and the inclusive heap-extraction loop.
 * ============================================================== -/

namespace Algoritmos

variable {α : Type} [Inhabited α]

/-- C5: a call of `swap_elements` that obtains its temporary buffer
exchanges the two elements and bumps `contador_trocas` by exactly 1 and
`contador_movimentacoes` by exactly 3, leaving the comparison counter,
the buffer length and every other element alone. -/
theorem claim5_swap_elements_spec (i j : ℕ) (s : SortState α)
    (hi : i < s.arr.length) (hj : j < s.arr.length) :
    getE (swap_elementsA true i j s).arr i = getE s.arr j ∧
    getE (swap_elementsA true i j s).arr j = getE s.arr i ∧
    (∀ k, k ≠ i → k ≠ j → getE (swap_elementsA true i j s).arr k = getE s.arr k) ∧
    (swap_elementsA true i j s).arr.length = s.arr.length ∧
    (swap_elementsA true i j s).trocas = s.trocas + 1 ∧
    (swap_elementsA true i j s).movimentacoes = s.movimentacoes + 3 ∧
    (swap_elementsA true i j s).comparacoes = s.comparacoes := by
  have hA : swap_elementsA true i j s = swap_elements i j s := rfl
  have harr : (swap_elements i j s).arr
      = setE (setE s.arr i (getE s.arr j)) j (getE s.arr i) := rfl
  have hjlen : j < (setE s.arr i (getE s.arr j)).length := by
    rw [length_setE]; exact hj
  refine ⟨?_, ?_, ?_, ?_, rfl, rfl, rfl⟩
  · rcases eq_or_ne i j with rfl | hne
    · rw [hA, harr, getE_setE_self hjlen]
    · rw [hA, harr, getE_setE_ne (Ne.symm hne), getE_setE_self hi]
  · rw [hA, harr, getE_setE_self hjlen]
  · intro k hki hkj
    rw [hA, harr, getE_setE_ne (Ne.symm hkj), getE_setE_ne (Ne.symm hki)]
  · rw [hA, harr, length_setE, length_setE]

/-- Witness for C5 at a concrete input. -/
theorem claim5_swap_elements_spec_witness :
    getE (swap_elementsA true 0 2 ⟨[(10 : Int), 20, 30], 4, 5, 6⟩).arr 0 = 30 ∧
    getE (swap_elementsA true 0 2 ⟨[(10 : Int), 20, 30], 4, 5, 6⟩).arr 2 = 10 ∧
    (∀ k, k ≠ 0 → k ≠ 2 →
      getE (swap_elementsA true 0 2 ⟨[(10 : Int), 20, 30], 4, 5, 6⟩).arr k
        = getE ([(10 : Int), 20, 30]) k) ∧
    (swap_elementsA true 0 2 ⟨[(10 : Int), 20, 30], 4, 5, 6⟩).arr.length = 3 ∧
    (swap_elementsA true 0 2 ⟨[(10 : Int), 20, 30], 4, 5, 6⟩).trocas = 6 ∧
    (swap_elementsA true 0 2 ⟨[(10 : Int), 20, 30], 4, 5, 6⟩).movimentacoes = 9 ∧
    (swap_elementsA true 0 2 ⟨[(10 : Int), 20, 30], 4, 5, 6⟩).comparacoes = 4 :=
  claim5_swap_elements_spec 0 2 ⟨[(10 : Int), 20, 30], 4, 5, 6⟩ (by decide) (by decide)

/-- C8: a pivot-buffer allocation failure in either partition is fatal
(diagnostic message and `exit(EXIT_FAILURE)`, modelled as an
`Except.error`), while a temporary-buffer allocation failure in
`swap_elements` silently skips the swap, leaving the buffer and all
three counters unchanged. -/
theorem claim8_allocation_failure_policy :
    (∀ (cmp : α → α → Int) (inicio fim : ℕ) (s : SortState α),
        partition_naiveA false cmp inicio fim s =
          Except.error "ERRO CRITICO: Falha na alocacao de memoria para pivo no Quick Sort" ∧
        partition_optimizedA false cmp inicio fim s =
          Except.error
            "ERRO CRITICO: Falha na alocacao de memoria para pivo no Quick Sort otimizado") ∧
    (∀ (i j : ℕ) (s : SortState α), swap_elementsA false i j s = s) :=
  ⟨fun _ _ _ _ => ⟨rfl, rfl⟩, fun _ _ _ => rfl⟩

/-- Helper: sift-down on a heap prefix of size 0 rooted at 0 is the
identity (both children are bounds-checked out). -/
theorem heapify_naive_size_zero (cmp : α → α → Int) (fuel : ℕ) (s : SortState α) :
    heapify_naive cmp fuel 0 0 s = s := by
  cases fuel with
  | zero => rfl
  | succ f => simp [heapify_naive]

/-- Helper: `heapify_optimized` on a heap prefix of size 0 rooted at 0
is the identity. -/
theorem heapify_optimized_size_zero (cmp : α → α → Int) (fuel : ℕ) (s : SortState α) :
    heapify_optimized cmp fuel 0 0 s = s := by
  cases fuel with
  | zero => rfl
  | succ f => simp [heapify_optimized]

/-- C9: in both heap-sort variants the extraction loop includes `i = 0`,
so for every `n ≥ 1` the run decomposes as "everything but the last
iteration, then a swap of the root with itself" — the buffer is
unchanged by that final iteration while `contador_trocas` gains 1 and
`contador_movimentacoes` gains 3.  On a 1-element buffer the whole sort
reduces to exactly that degenerate iteration: contents unchanged,
swap counter +1, movement counter +3, no comparison. -/
theorem claim9_heap_extraction_self_swap (cmp : α → α → Int) (n : ℕ) (hn : 1 ≤ n)
    (s : SortState α) :
    (heap_sort_naive cmp n s =
      (let t := loopDown (fun i u => heapify_naive cmp n i 0 (swap_elements 0 i u)) (n - 1)
          (n - 1) (loopDown (fun i u => heapify_naive cmp n n i u) (n / 2) (n / 2 - 1) s)
       { t with trocas := t.trocas + 1, movimentacoes := t.movimentacoes + 3 })) ∧
    (heap_sort_optimized cmp n s =
      (let t := loopDown (fun i u => heapify_optimized cmp n i 0 (swap_elements 0 i u)) (n - 1)
          (n - 1) (loopDown (fun i u => heapify_optimized cmp n n i u) (n / 2) (n / 2 - 1) s)
       { t with trocas := t.trocas + 1, movimentacoes := t.movimentacoes + 3 })) ∧
    (∀ (v : α) (c tr mv : ℕ),
      heap_sort_naive cmp 1 ⟨[v], c, tr, mv⟩ = ⟨[v], c, tr + 1, mv + 3⟩ ∧
      heap_sort_optimized cmp 1 ⟨[v], c, tr, mv⟩ = ⟨[v], c, tr + 1, mv + 3⟩) := by
  obtain ⟨m, rfl⟩ : ∃ m, n = m + 1 := ⟨n - 1, by omega⟩
  refine ⟨?_, ?_, ?_⟩
  · show loopDown _ (m + 1) m _ = _
    rw [loopDown_last]
    simp only [Nat.sub_self]
    rw [swap_elements_self, heapify_naive_size_zero]
    simp only [Nat.add_sub_cancel]
  · show loopDown _ (m + 1) m _ = _
    rw [loopDown_last]
    simp only [Nat.sub_self]
    rw [swap_elements_self, heapify_optimized_size_zero]
    simp only [Nat.add_sub_cancel]
  · intro v c tr mv
    constructor
    · rw [show heap_sort_naive cmp 1 (⟨[v], c, tr, mv⟩ : SortState α)
          = heapify_naive cmp 1 0 0 (swap_elements 0 0 ⟨[v], c, tr, mv⟩) from rfl,
        swap_elements_self, heapify_naive_size_zero]
    · rw [show heap_sort_optimized cmp 1 (⟨[v], c, tr, mv⟩ : SortState α)
          = heapify_optimized cmp 1 0 0 (swap_elements 0 0 ⟨[v], c, tr, mv⟩) from rfl,
        swap_elements_self, heapify_optimized_size_zero]

/-- Witness for C9 at `n = 1` on a concrete 1-element integer buffer. -/
theorem claim9_heap_extraction_self_swap_witness :
    heap_sort_naive cmpInt 1 ⟨[(7 : Int)], 0, 0, 0⟩ = ⟨[(7 : Int)], 0, 1, 3⟩ ∧
    heap_sort_optimized cmpInt 1 ⟨[(7 : Int)], 0, 0, 0⟩ = ⟨[(7 : Int)], 0, 1, 3⟩ :=
  (claim9_heap_extraction_self_swap cmpInt 1 (by decide)
    ⟨[(7 : Int)], 0, 0, 0⟩).2.2 7 0 0 0

/-- Witness for C10-style entry reasoning is not needed; see below. -/
theorem claim10_silent_allocation_failure :
    ∀ (cmp : α → α → Int) (n : ℕ) (s : SortState α),
      insertion_sort_naiveA false cmp n s = s ∧
      insertion_sort_optimizedA false cmp n s = s ∧
      shell_sort_naiveA false cmp n s = s ∧
      shell_sort_optimizedA false cmp n s = s :=
  fun _ _ _ => ⟨rfl, rfl, rfl, rfl⟩

end Algoritmos

/- ==============================================================
 * Claim C4: the timing harness of analise.c (lines 215-365)
 * ============================================================== -/

namespace Analise

/-- Minimum positive result floor of the timing harness
(`0.000001` seconds). -/
def EPSILON_MIN : ℚ := 1 / 1000000

/-- Adaptive repetition count `determinar_num_execucoes`
(analise.c lines 419-435). -/
def determinar_num_execucoes (tamanho : Int) : Int :=
  if tamanho ≤ 0 then 1
  else if tamanho < 100 then 10
  else if tamanho < 1000 then 5
  else if tamanho < 10000 then 3
  else 1

/-- Accumulated-and-averaged repetition time: the `tempo_total`
accumulation loop followed by the division by `num_execucoes`. -/
def mediaTempos (numExec : Int) (d : ℕ → ℚ) : ℚ :=
  (List.range numExec.toNat).foldl (fun acc k => acc + d k) 0 / (numExec : ℚ)

/-- Model of `medir_tempo_ordenacao` (analise.c lines 215-283).  The
clock is abstracted by the stream `d` of elapsed durations
(`tempo_fim - tempo_inicio` of each timed invocation), which may be
zero or even negative — the harness only combines and clamps them.
The null-pointer checks, the `size_t` overflow test on
`n * elem_size`, and the backup-buffer allocation outcome are
represented by the corresponding booleans, mirroring the C branch
structure. -/
def medir_tempo_ordenacao (fnNull arrNull cmpNull elemSizeZero : Bool)
    (n : Int) (overflow allocFail : Bool) (d : ℕ → ℚ) : ℚ :=
  if fnNull ∨ arrNull ∨ cmpNull ∨ n ≤ 0 ∨ elemSizeZero then EPSILON_MIN
  else if determinar_num_execucoes n > 1 then
    if overflow then (if 0 < d 0 then d 0 else EPSILON_MIN)
    else if allocFail then (if 0 < d 0 then d 0 else EPSILON_MIN)
    else if 0 < mediaTempos (determinar_num_execucoes n) d then
      mediaTempos (determinar_num_execucoes n) d
    else EPSILON_MIN
  else if 0 < d 0 then d 0 else EPSILON_MIN

/-- Model of `medir_tempo_quick_sort` (analise.c lines 299-365): the C
body is a copy of `medir_tempo_ordenacao` that invokes the
range-signature entry point with `(0, n-1)`; the returned value is
computed identically. -/
def medir_tempo_quick_sort (fnNull arrNull cmpNull elemSizeZero : Bool)
    (n : Int) (overflow allocFail : Bool) (d : ℕ → ℚ) : ℚ :=
  if fnNull ∨ arrNull ∨ cmpNull ∨ n ≤ 0 ∨ elemSizeZero then EPSILON_MIN
  else if determinar_num_execucoes n > 1 then
    if overflow then (if 0 < d 0 then d 0 else EPSILON_MIN)
    else if allocFail then (if 0 < d 0 then d 0 else EPSILON_MIN)
    else if 0 < mediaTempos (determinar_num_execucoes n) d then
      mediaTempos (determinar_num_execucoes n) d
    else EPSILON_MIN
  else if 0 < d 0 then d 0 else EPSILON_MIN

/-- C4: for every valid input (non-null function, buffer and
comparator, `n ≥ 1`, nonzero element size) — including `n = 1` — both
timing entry points return a strictly positive value, whatever the
clock readings, the overflow test and the backup allocation do: every
branch either returns a duration already checked `> 0` or the positive
floor `EPSILON_MIN`. -/
theorem claim4_measure_positive (fnNull arrNull cmpNull elemSizeZero : Bool)
    (n : Int) (overflow allocFail : Bool) (d : ℕ → ℚ)
    (hfn : fnNull = false) (harr : arrNull = false) (hcmp : cmpNull = false)
    (hes : elemSizeZero = false) (_hn : 1 ≤ n) :
    0 < medir_tempo_ordenacao fnNull arrNull cmpNull elemSizeZero n overflow allocFail d ∧
    0 < medir_tempo_quick_sort fnNull arrNull cmpNull elemSizeZero n overflow allocFail d := by
  subst hfn harr hcmp hes
  have heps : (0 : ℚ) < EPSILON_MIN := by norm_num [EPSILON_MIN]
  constructor
  · unfold medir_tempo_ordenacao
    split_ifs <;> assumption
  · unfold medir_tempo_quick_sort
    split_ifs <;> assumption

/-- Witness for C4 at `n = 1` with a clock whose every measured
duration is negative: the harness still returns a strictly positive
value. -/
theorem claim4_measure_positive_witness :
    0 < medir_tempo_ordenacao false false false false 1 false false (fun _ => -1) ∧
    0 < medir_tempo_quick_sort false false false false 1 false false (fun _ => -1) :=
  claim4_measure_positive false false false false 1 false false (fun _ => -1)
    rfl rfl rfl rfl (by norm_num)

end Analise

/- ==============================================================
 * Claim C6: movement/swap counter consistency for the ten sorts
 * whose only buffer movement is the 3-step swap primitive.
 * ============================================================== -/

namespace Algoritmos

variable {α : Type} [Inhabited α]

/-- Counter-consistency invariant: every movement was produced by a
3-step swap. -/
def MovOk (s : SortState α) : Prop := s.movimentacoes = 3 * s.trocas

theorem movOk_swap (i j : ℕ) {s : SortState α} (h : MovOk s) :
    MovOk (swap_elements i j s) := by
  simp only [MovOk, swap_elements] at *
  omega

@[simp]
theorem swap_elements_trocas (i j : ℕ) (s : SortState α) :
    (swap_elements i j s).trocas = s.trocas + 1 := rfl

@[simp]
theorem swap_elements_movimentacoes (i j : ℕ) (s : SortState α) :
    (swap_elements i j s).movimentacoes = s.movimentacoes + 3 := rfl

@[simp]
theorem swap_elements_comparacoes (i j : ℕ) (s : SortState α) :
    (swap_elements i j s).comparacoes = s.comparacoes := rfl

/-- Unrestricted preservation along a downward loop. -/
theorem loopDown_pres {σ : Type _} (Q : σ → Prop) {body : ℕ → σ → σ}
    (hbody : ∀ i x, Q x → Q (body i x)) (c i : ℕ) (x : σ) (hx : Q x) :
    Q (loopDown body c i x) :=
  loopDown_pres_of Q c i (fun k y _ _ hy => hbody k y hy) x hx

theorem movOk_shakerFwdBody (cmp : α → α → Int) (i : ℕ) (x : SortState α × Bool)
    (hx : MovOk x.1) : MovOk (shakerFwdBody cmp i x).1 := by
  obtain ⟨s, b⟩ := x
  simp only [shakerFwdBody, comparar]
  split_ifs
  · exact movOk_swap _ _ hx
  · exact hx

theorem movOk_shakerBwdBody (cmp : α → α → Int) (i : ℕ) (x : SortState α × Bool)
    (hx : MovOk x.1) : MovOk (shakerBwdBody cmp i x).1 := by
  obtain ⟨s, b⟩ := x
  simp only [shakerBwdBody, comparar]
  split_ifs
  · exact movOk_swap _ _ hx
  · exact hx

theorem movOk_shakerNaiveLoop (cmp : α → α → Int) (n : ℕ) :
    ∀ (rest pass : ℕ) (s : SortState α), MovOk s → MovOk (shakerNaiveLoop cmp n rest pass s) := by
  intro rest
  induction rest with
  | zero => intro pass s hs; exact hs
  | succ rest ih =>
    intro pass s hs
    simp only [shakerNaiveLoop]
    split_ifs
    all_goals
      first
        | exact ih _ _ (loopDown_pres _ (movOk_shakerBwdBody cmp) _ _ _
            (loopUp_pres _ (movOk_shakerFwdBody cmp) _ _ _ hs))
        | exact loopDown_pres _ (movOk_shakerBwdBody cmp) _ _ _
            (loopUp_pres _ (movOk_shakerFwdBody cmp) _ _ _ hs)

theorem movOk_shaker_sort_naive (cmp : α → α → Int) (n : ℕ) (s : SortState α)
    (hs : MovOk s) : MovOk (shaker_sort_naive cmp n s) :=
  movOk_shakerNaiveLoop cmp n _ _ s hs

theorem movOk_shakerOptLoop (cmp : α → α → Int) :
    ∀ (fuel inicio fim : ℕ) (houve : Bool) (s : SortState α),
      MovOk s → MovOk (shakerOptLoop cmp fuel inicio fim houve s) := by
  intro fuel
  induction fuel with
  | zero => intro _ _ _ s hs; exact hs
  | succ fuel ih =>
    intro inicio fim houve s hs
    simp only [shakerOptLoop]
    split_ifs
    all_goals
      first
        | exact hs
        | exact loopUp_pres _ (movOk_shakerFwdBody cmp) _ _ _ hs
        | exact ih _ _ _ _ (loopDown_pres _ (movOk_shakerBwdBody cmp) _ _ _
            (loopUp_pres _ (movOk_shakerFwdBody cmp) _ _ _ hs))

theorem movOk_shaker_sort_optimized (cmp : α → α → Int) (n : ℕ) (s : SortState α)
    (hs : MovOk s) : MovOk (shaker_sort_optimized cmp n s) :=
  movOk_shakerOptLoop cmp _ _ _ _ s hs

theorem movOk_bubbleNaiveBody (cmp : α → α → Int) (j : ℕ) (s : SortState α)
    (hs : MovOk s) : MovOk (bubbleNaiveBody cmp j s) := by
  simp only [bubbleNaiveBody, comparar]
  split_ifs
  · exact movOk_swap _ _ hs
  · exact hs

theorem movOk_bubble_sort_naive (cmp : α → α → Int) (n : ℕ) (s : SortState α)
    (hs : MovOk s) : MovOk (bubble_sort_naive cmp n s) :=
  loopUp_pres _ (fun _ t ht => loopUp_pres _ (movOk_bubbleNaiveBody cmp) _ _ t ht) _ _ s hs

theorem movOk_bubbleOptBody (cmp : α → α → Int) (j : ℕ) (x : SortState α × Bool)
    (hx : MovOk x.1) : MovOk (bubbleOptBody cmp j x).1 := by
  obtain ⟨s, b⟩ := x
  simp only [bubbleOptBody, comparar]
  split_ifs
  · exact movOk_swap _ _ hx
  · exact hx

theorem movOk_bubbleOptLoop (cmp : α → α → Int) (n : ℕ) :
    ∀ (rest i : ℕ) (s : SortState α), MovOk s → MovOk (bubbleOptLoop cmp n rest i s) := by
  intro rest
  induction rest with
  | zero => intro _ s hs; exact hs
  | succ rest ih =>
    intro i s hs
    simp only [bubbleOptLoop]
    split_ifs
    · exact ih _ _ (loopUp_pres _ (movOk_bubbleOptBody cmp) _ _ _ hs)
    · exact loopUp_pres _ (movOk_bubbleOptBody cmp) _ _ _ hs

theorem movOk_bubble_sort_optimized (cmp : α → α → Int) (n : ℕ) (s : SortState α)
    (hs : MovOk s) : MovOk (bubble_sort_optimized cmp n s) :=
  movOk_bubbleOptLoop cmp n _ _ s hs

theorem movOk_selMinBody (cmp : α → α → Int) (j : ℕ) (x : SortState α × ℕ)
    (hx : MovOk x.1) : MovOk (selMinBody cmp j x).1 := by
  obtain ⟨s, m⟩ := x
  simp only [selMinBody, comparar]
  split_ifs <;> exact hx

theorem movOk_selection_sort_naive (cmp : α → α → Int) (n : ℕ) (s : SortState α)
    (hs : MovOk s) : MovOk (selection_sort_naive cmp n s) :=
  loopUp_pres _
    (fun i t ht => movOk_swap _ _ (loopUp_pres _ (movOk_selMinBody cmp) _ _ (t, i) ht))
    _ _ s hs

theorem movOk_bingoScanBody (cmp : α → α → Int) (i : ℕ) (x : SortState α × α × α)
    (hx : MovOk x.1) : MovOk (bingoScanBody cmp i x).1 := by
  obtain ⟨s, b, p⟩ := x
  simp only [bingoScanBody, comparar]
  split_ifs <;> exact hx

theorem movOk_bingoMoveBody (cmp : α → α → Int) (i : ℕ) (x : SortState α × ℕ × α × α)
    (hx : MovOk x.1) : MovOk (bingoMoveBody cmp i x).1 := by
  obtain ⟨s, k, b, p⟩ := x
  simp only [bingoMoveBody, comparar]
  split_ifs
  · exact movOk_swap _ _ hx
  all_goals exact hx

theorem movOk_bingoNextBody (cmp : α → α → Int) (i : ℕ) (x : SortState α × α × α × Bool)
    (hx : MovOk x.1) : MovOk (bingoNextBody cmp i x).1 := by
  obtain ⟨s, b, p, e⟩ := x
  simp only [bingoNextBody, comparar]
  split_ifs <;> exact hx

theorem movOk_bingoMainLoop (cmp : α → α → Int) (n : ℕ) :
    ∀ (fuel inicio : ℕ) (bingo proximo : α) (s : SortState α),
      MovOk s → MovOk (bingoMainLoop cmp n fuel inicio bingo proximo s) := by
  intro fuel
  induction fuel with
  | zero => intro _ _ _ s hs; exact hs
  | succ fuel ih =>
    intro inicio bingo proximo s hs
    simp only [bingoMainLoop]
    split_ifs
    · exact loopUp_pres _ (movOk_bingoMoveBody cmp) _ _ _ hs
    · exact ih _ _ _ _ (loopUp_pres _ (movOk_bingoNextBody cmp) _ _ _
        (loopUp_pres _ (movOk_bingoMoveBody cmp) _ _ _ hs))
    · exact hs

theorem movOk_selection_sort_optimized (cmp : α → α → Int) (n : ℕ) (s : SortState α)
    (hs : MovOk s) : MovOk (selection_sort_optimized cmp n s) :=
  movOk_bingoMainLoop cmp n _ _ _ _ _
    (loopUp_pres _ (movOk_bingoScanBody cmp) _ _ _ hs)

theorem movOk_partitionLoop (cmp : α → α → Int) (pivo : α) :
    ∀ (c j ip1 : ℕ) (s : SortState α), MovOk s →
      MovOk (partitionLoop cmp pivo c j ip1 s).2 := by
  intro c
  induction c with
  | zero => intro _ _ s hs; exact hs
  | succ c ih =>
    intro j ip1 s hs
    simp only [partitionLoop, comparar]
    split_ifs
    · exact ih _ _ _ (movOk_swap _ _ hs)
    · exact ih _ _ _ hs

theorem movOk_partition_naive (cmp : α → α → Int) (inicio fim : ℕ) (s : SortState α)
    (hs : MovOk s) : MovOk (partition_naive cmp inicio fim s).2 :=
  movOk_swap _ _ (movOk_partitionLoop cmp _ _ _ _ s hs)

theorem movOk_partition_optimized (cmp : α → α → Int) (inicio fim : ℕ) (s : SortState α)
    (hs : MovOk s) : MovOk (partition_optimized cmp inicio fim s).2 :=
  movOk_swap _ _ (movOk_partitionLoop cmp _ _ _ _ s hs)

theorem movOk_mediana_de_tres (cmp : α → α → Int) (inicio fim : ℕ) (s : SortState α)
    (hs : MovOk s) : MovOk (mediana_de_tres cmp inicio fim s) := by
  simp only [MovOk] at hs ⊢
  simp only [mediana_de_tres, comparar]
  split_ifs <;>
    simp only [swap_elements_trocas, swap_elements_movimentacoes] <;> omega

theorem movOk_quick_sort_naive (cmp : α → α → Int) :
    ∀ (fuel inicio fim : ℕ) (s : SortState α), MovOk s →
      MovOk (quick_sort_naive cmp fuel inicio fim s) := by
  intro fuel
  induction fuel with
  | zero => intro _ _ s hs; exact hs
  | succ fuel ih =>
    intro inicio fim s hs
    simp only [quick_sort_naive]
    split_ifs
    · exact ih _ _ _ (ih _ _ _ (movOk_partition_naive cmp _ _ s hs))
    · exact hs

theorem movOk_quick_sort_optimized (cmp : α → α → Int) :
    ∀ (fuel inicio fim : ℕ) (s : SortState α), MovOk s →
      MovOk (quick_sort_optimized cmp fuel inicio fim s) := by
  intro fuel
  induction fuel with
  | zero => intro _ _ s hs; exact hs
  | succ fuel ih =>
    intro inicio fim s hs
    simp only [quick_sort_optimized]
    split_ifs with h1 h2
    · exact ih _ _ _ (ih _ _ _ (movOk_partition_optimized cmp _ _ _
        (movOk_mediana_de_tres cmp _ _ s hs)))
    · exact ih _ _ _ (ih _ _ _ (movOk_partition_optimized cmp _ _ _ hs))
    · exact hs

theorem movOk_heapify_naive (cmp : α → α → Int) :
    ∀ (fuel n i : ℕ) (s : SortState α), MovOk s → MovOk (heapify_naive cmp fuel n i s) := by
  intro fuel
  induction fuel with
  | zero => intro _ _ s hs; exact hs
  | succ fuel ih =>
    intro n i s hs
    simp only [heapify_naive, comparar]
    split_ifs <;> first | exact ih _ _ _ (movOk_swap _ _ hs) | exact hs

theorem movOk_heapify_optimized (cmp : α → α → Int) :
    ∀ (fuel n i : ℕ) (s : SortState α), MovOk s → MovOk (heapify_optimized cmp fuel n i s) := by
  intro fuel
  induction fuel with
  | zero => intro _ _ s hs; exact hs
  | succ fuel ih =>
    intro n i s hs
    simp only [heapify_optimized, comparar]
    split_ifs <;> first | exact ih _ _ _ (movOk_swap _ _ hs) | exact hs

theorem movOk_heap_sort_naive (cmp : α → α → Int) (n : ℕ) (s : SortState α)
    (hs : MovOk s) : MovOk (heap_sort_naive cmp n s) :=
  loopDown_pres _ (fun i t ht => movOk_heapify_naive cmp n i 0 (swap_elements 0 i t)
      (movOk_swap _ _ ht)) _ _ _
    (loopDown_pres _ (fun i t ht => movOk_heapify_naive cmp n n i t ht) _ _ s hs)

theorem movOk_heap_sort_optimized (cmp : α → α → Int) (n : ℕ) (s : SortState α)
    (hs : MovOk s) : MovOk (heap_sort_optimized cmp n s) :=
  loopDown_pres _ (fun i t ht => movOk_heapify_optimized cmp n i 0 (swap_elements 0 i t)
      (movOk_swap _ _ ht)) _ _ _
    (loopDown_pres _ (fun i t ht => movOk_heapify_optimized cmp n n i t ht) _ _ s hs)

/-- C6: starting from freshly reset counters, for each of the ten sorts
whose only buffer movement goes through `swap_elements` — bubble,
selection, shaker, quick and heap sort, naive and optimized — the
final counters satisfy `contador_trocas * 3 == contador_movimentacoes`
(the quick sorts are covered for every range and every sufficient
recursion budget; the insertion and shell variants, which count
single-copy shifts, are excluded by the claim). -/
theorem claim6_three_movements_per_swap (cmp : α → α → Int) (l : List α)
    (n fuel inicio fim : ℕ) :
    (bubble_sort_naive cmp n ⟨l, 0, 0, 0⟩).trocas * 3
        = (bubble_sort_naive cmp n ⟨l, 0, 0, 0⟩).movimentacoes ∧
    (bubble_sort_optimized cmp n ⟨l, 0, 0, 0⟩).trocas * 3
        = (bubble_sort_optimized cmp n ⟨l, 0, 0, 0⟩).movimentacoes ∧
    (selection_sort_naive cmp n ⟨l, 0, 0, 0⟩).trocas * 3
        = (selection_sort_naive cmp n ⟨l, 0, 0, 0⟩).movimentacoes ∧
    (selection_sort_optimized cmp n ⟨l, 0, 0, 0⟩).trocas * 3
        = (selection_sort_optimized cmp n ⟨l, 0, 0, 0⟩).movimentacoes ∧
    (shaker_sort_naive cmp n ⟨l, 0, 0, 0⟩).trocas * 3
        = (shaker_sort_naive cmp n ⟨l, 0, 0, 0⟩).movimentacoes ∧
    (shaker_sort_optimized cmp n ⟨l, 0, 0, 0⟩).trocas * 3
        = (shaker_sort_optimized cmp n ⟨l, 0, 0, 0⟩).movimentacoes ∧
    (quick_sort_naive cmp fuel inicio fim ⟨l, 0, 0, 0⟩).trocas * 3
        = (quick_sort_naive cmp fuel inicio fim ⟨l, 0, 0, 0⟩).movimentacoes ∧
    (quick_sort_optimized cmp fuel inicio fim ⟨l, 0, 0, 0⟩).trocas * 3
        = (quick_sort_optimized cmp fuel inicio fim ⟨l, 0, 0, 0⟩).movimentacoes ∧
    (heap_sort_naive cmp n ⟨l, 0, 0, 0⟩).trocas * 3
        = (heap_sort_naive cmp n ⟨l, 0, 0, 0⟩).movimentacoes ∧
    (heap_sort_optimized cmp n ⟨l, 0, 0, 0⟩).trocas * 3
        = (heap_sort_optimized cmp n ⟨l, 0, 0, 0⟩).movimentacoes := by
  have h0 : MovOk (⟨l, 0, 0, 0⟩ : SortState α) := by simp [MovOk]
  refine ⟨?_, ?_, ?_, ?_, ?_, ?_, ?_, ?_, ?_, ?_⟩ <;>
    first
      | (have h := movOk_bubble_sort_naive cmp n _ h0; rw [MovOk] at h; omega)
      | (have h := movOk_bubble_sort_optimized cmp n _ h0; rw [MovOk] at h; omega)
      | (have h := movOk_selection_sort_naive cmp n _ h0; rw [MovOk] at h; omega)
      | (have h := movOk_selection_sort_optimized cmp n _ h0; rw [MovOk] at h; omega)
      | (have h := movOk_shaker_sort_naive cmp n _ h0; rw [MovOk] at h; omega)
      | (have h := movOk_shaker_sort_optimized cmp n _ h0; rw [MovOk] at h; omega)
      | (have h := movOk_quick_sort_naive cmp fuel inicio fim _ h0; rw [MovOk] at h; omega)
      | (have h := movOk_quick_sort_optimized cmp fuel inicio fim _ h0; rw [MovOk] at h; omega)
      | (have h := movOk_heap_sort_naive cmp n _ h0; rw [MovOk] at h; omega)
      | (have h := movOk_heap_sort_optimized cmp n _ h0; rw [MovOk] at h; omega)

end Algoritmos

/- ==============================================================
 * Claim C7: stability of insertion, bubble and shaker sort.
 *
 * The tracked pair of cmp-equal elements is represented by two
 * distinct element values s, t that each occur exactly once, s before
 * t; `pairFilter s t l = [s, t]` states precisely that.  (The C code
 * is type-erased, so distinct record elements with equal keys are
 * distinct values of α compared by a key-projecting comparator.)
 * ============================================================== -/

namespace Algoritmos

variable {α : Type} [Inhabited α] [DecidableEq α]

/-- Subsequence of the two tracked occurrences `s` and `t`:
`pairFilter s t l = [s, t]` says each occurs exactly once and `s`
comes first. -/
def pairFilter (s t : α) (l : List α) : List α :=
  l.filter (fun x => decide (x = s ∨ x = t))

omit [DecidableEq α] in
theorem getE_append_left {A B : List α} {p : ℕ} (h : p < A.length) :
    getE (A ++ B) p = getE A p := by
  rw [getE, getE, List.getD_eq_getElem?_getD, List.getD_eq_getElem?_getD,
    List.getElem?_append_left h]

omit [DecidableEq α] in
theorem getE_take {l : List α} {n p : ℕ} (h : p < n) :
    getE (l.take n) p = getE l p := by
  rw [getE, getE, List.getD_eq_getElem?_getD, List.getD_eq_getElem?_getD, List.getElem?_take,
    if_pos h]

omit [DecidableEq α] in
/-- Decompose a list around two adjacent in-range positions. -/
theorem eq_take_cons_cons_drop {l : List α} {k : ℕ} (hk : k + 1 < l.length) :
    l = l.take k ++ getE l k :: getE l (k + 1) :: l.drop (k + 2) := by
  have h1 : k < l.length := by omega
  have e1 : l.drop k = getE l k :: l.drop (k + 1) := by
    rw [List.drop_eq_getElem_cons h1, getE, List.getD_eq_getElem?_getD,
      List.getElem?_eq_getElem h1]
    rfl
  have e2 : l.drop (k + 1) = getE l (k + 1) :: l.drop (k + 2) := by
    rw [List.drop_eq_getElem_cons hk, getE, List.getD_eq_getElem?_getD,
      List.getElem?_eq_getElem hk]
    rfl
  calc l = l.take k ++ l.drop k := (List.take_append_drop k l).symm
  _ = _ := by rw [e1, e2]

omit [DecidableEq α] in
/-- The 3-step swap of two adjacent in-range positions as list
surgery. -/
theorem swapAdj_eq : ∀ (l : List α) (k : ℕ), k + 1 < l.length →
    setE (setE l k (getE l (k + 1))) (k + 1) (getE l k)
      = l.take k ++ getE l (k + 1) :: getE l k :: l.drop (k + 2)
  | [], k, h => by simp at h
  | [a], k, h => by simp at h
  | a :: b :: rest, 0, _ => by
    simp [getE, setE]
  | a :: b :: rest, (k + 1), h => by
    have hlen : k + 1 < (b :: rest).length := by
      simpa using Nat.lt_of_succ_lt_succ h
    have ih := swapAdj_eq (b :: rest) k hlen
    simp only [getE, setE] at ih ⊢
    simp only [List.getD_cons_succ, List.set_cons_succ, List.take_succ_cons,
      List.drop_succ_cons]
    exact congrArg (a :: ·) ih

/-- Core preservation step: swapping two adjacent in-range elements
cannot disturb the tracked pair unless the swapped positions hold
exactly `(s, t)` in order — and the remaining both-tracked
configurations are impossible when each tracked element occurs exactly
once with `s` first. -/
theorem pairFilter_swapAdj {s t : α} (hst : s ≠ t) {l : List α} {k : ℕ}
    (hk : k + 1 < l.length)
    (hcur : pairFilter s t l = [s, t])
    (hpair1 : ¬(getE l k = s ∧ getE l (k + 1) = t)) :
    pairFilter s t (setE (setE l k (getE l (k + 1))) (k + 1) (getE l k)) = [s, t] := by
  rw [swapAdj_eq l k hk]
  by_cases hx : getE l k = s ∨ getE l k = t
  · by_cases hy : getE l (k + 1) = s ∨ getE l (k + 1) = t
    · exfalso
      rw [eq_take_cons_cons_drop hk] at hcur
      simp only [pairFilter, List.filter_append, List.filter_cons] at hcur
      rw [if_pos (decide_eq_true hx), if_pos (decide_eq_true hy)] at hcur
      have hlen := congrArg List.length hcur
      simp only [List.length_append, List.length_cons, List.length_nil] at hlen
      have hT : List.filter (fun x => decide (x = s ∨ x = t)) (List.take k l) = [] :=
        List.eq_nil_of_length_eq_zero (by omega)
      have hD : List.filter (fun x => decide (x = s ∨ x = t)) (List.drop (k + 2) l) = [] :=
        List.eq_nil_of_length_eq_zero (by omega)
      rw [hT, hD] at hcur
      simp only [List.nil_append, List.cons.injEq, and_true] at hcur
      exact hpair1 ⟨hcur.1, hcur.2⟩
    · have hfy : (decide (getE l (k + 1) = s ∨ getE l (k + 1) = t)) = false :=
        decide_eq_false hy
      have hswap : pairFilter s t
          (l.take k ++ getE l (k + 1) :: getE l k :: l.drop (k + 2))
          = pairFilter s t (l.take k ++ getE l k :: getE l (k + 1) :: l.drop (k + 2)) := by
        simp only [pairFilter, List.filter_append, List.filter_cons, hfy]
        simp
      rw [hswap, ← eq_take_cons_cons_drop hk]
      exact hcur
  · have hfx : (decide (getE l k = s ∨ getE l k = t)) = false := decide_eq_false hx
    have hswap : pairFilter s t
        (l.take k ++ getE l (k + 1) :: getE l k :: l.drop (k + 2))
        = pairFilter s t (l.take k ++ getE l k :: getE l (k + 1) :: l.drop (k + 2)) := by
      simp only [pairFilter, List.filter_append, List.filter_cons, hfx]
      simp
    rw [hswap, ← eq_take_cons_cons_drop hk]
    exact hcur

/-- Stability invariant carried through the sorting loops: the buffer
keeps its length and the tracked pair keeps its relative order. -/
def StabInv (s t : α) (len0 : ℕ) (u : SortState α) : Prop :=
  u.arr.length = len0 ∧ pairFilter s t u.arr = [s, t]

section StabBodies

variable (cmp : α → α → Int) {s t : α} {len0 : ℕ}

/-- A guarded forward adjacent swap (`cmp arr[j] arr[j+1] > 0`)
preserves the stability invariant. -/
theorem stabInv_shakerFwdBody (hst : s ≠ t) (h0 : cmp s t = 0)
    (j : ℕ) (hj : j + 1 < len0) (x : SortState α × Bool)
    (hx : StabInv s t len0 x.1) : StabInv s t len0 (shakerFwdBody cmp j x).1 := by
  obtain ⟨u, b⟩ := x
  obtain ⟨hlen, hflt⟩ := hx
  simp only [shakerFwdBody, comparar]
  split_ifs with hguard
  · refine ⟨by simp [length_swap, hlen], ?_⟩
    have harr : (swap_elements j (j + 1) { u with comparacoes := u.comparacoes + 1 }).arr
        = setE (setE u.arr j (getE u.arr (j + 1))) (j + 1) (getE u.arr j) := rfl
    rw [harr]
    apply pairFilter_swapAdj hst (by omega) hflt
    rintro ⟨h1, h2⟩
    rw [h1, h2] at hguard
    omega
  · exact ⟨hlen, hflt⟩

/-- A guarded backward adjacent swap (`cmp arr[i] arr[i-1] < 0`)
preserves the stability invariant; this direction needs the
exchange-symmetry of comparator equality. -/
theorem stabInv_shakerBwdBody (hsym : ∀ a b, cmp a b = 0 → cmp b a = 0)
    (hst : s ≠ t) (h0 : cmp s t = 0)
    (i : ℕ) (hi1 : 1 ≤ i) (hi2 : i < len0) (x : SortState α × Bool)
    (hx : StabInv s t len0 x.1) : StabInv s t len0 (shakerBwdBody cmp i x).1 := by
  obtain ⟨m, rfl⟩ : ∃ m, i = m + 1 := ⟨i - 1, by omega⟩
  obtain ⟨u, b⟩ := x
  obtain ⟨hlen, hflt⟩ := hx
  simp only [shakerBwdBody, comparar]
  split_ifs with hguard
  · refine ⟨by simp [length_swap, hlen], ?_⟩
    have harr : (swap_elements (m + 1) (m + 1 - 1)
          { u with comparacoes := u.comparacoes + 1 }).arr
        = setE (setE u.arr (m + 1) (getE u.arr m)) m (getE u.arr (m + 1)) := rfl
    rw [harr, setE, setE, List.set_comm _ _ _ (by omega)]
    apply pairFilter_swapAdj hst (by omega) hflt
    rintro ⟨h1, h2⟩
    have hm : m + 1 - 1 = m := by omega
    rw [hm] at hguard
    rw [h1, h2] at hguard
    have := hsym s t h0
    omega
  · exact ⟨hlen, hflt⟩

/-- The flagless bubble-sort body preserves the stability invariant. -/
theorem stabInv_bubbleNaiveBody (hst : s ≠ t) (h0 : cmp s t = 0)
    (j : ℕ) (hj : j + 1 < len0) (u : SortState α)
    (hu : StabInv s t len0 u) : StabInv s t len0 (bubbleNaiveBody cmp j u) := by
  obtain ⟨hlen, hflt⟩ := hu
  simp only [bubbleNaiveBody, comparar]
  split_ifs with hguard
  · refine ⟨by simp [length_swap, hlen], ?_⟩
    have harr : (swap_elements j (j + 1) { u with comparacoes := u.comparacoes + 1 }).arr
        = setE (setE u.arr j (getE u.arr (j + 1))) (j + 1) (getE u.arr j) := rfl
    rw [harr]
    apply pairFilter_swapAdj hst (by omega) hflt
    rintro ⟨h1, h2⟩
    rw [h1, h2] at hguard
    omega
  · exact ⟨hlen, hflt⟩

omit [DecidableEq α] in
/-- The flagged bubble-sort body is the same computation as the
forward shaker body. -/
theorem bubbleOptBody_eq_shakerFwdBody : bubbleOptBody cmp = shakerFwdBody cmp := rfl

end StabBodies

section StabLoops

variable (cmp : α → α → Int) {s t : α} {len0 : ℕ}

theorem stabInv_bubble_sort_naive (hst : s ≠ t) (h0 : cmp s t = 0) (n : ℕ)
    (hn : n ≤ len0) (u : SortState α) (hu : StabInv s t len0 u) :
    StabInv s t len0 (bubble_sort_naive cmp n u) := by
  apply loopUp_pres (StabInv s t len0) ?_ (n - 1) 0 u hu
  intro i x hx
  apply loopUp_pres_of (StabInv s t len0) (n - i - 1) 0 ?_ x hx
  intro k y _ hk2 hy
  exact stabInv_bubbleNaiveBody cmp hst h0 k (by omega) y hy

theorem stabInv_bubbleOptLoop (hst : s ≠ t) (h0 : cmp s t = 0) (n : ℕ)
    (hn : n ≤ len0) :
    ∀ (rest i : ℕ) (u : SortState α), StabInv s t len0 u →
      StabInv s t len0 (bubbleOptLoop cmp n rest i u) := by
  intro rest
  induction rest with
  | zero => intro _ u hu; exact hu
  | succ rest ih =>
    intro i u hu
    simp only [bubbleOptLoop]
    have hp : StabInv s t len0 (loopUp (bubbleOptBody cmp) (n - i - 1) 0 (u, false)).1 := by
      rw [bubbleOptBody_eq_shakerFwdBody]
      apply loopUp_pres_of (fun x : SortState α × Bool => StabInv s t len0 x.1) (n - i - 1) 0 ?_ (u, false) hu
      intro k y _ hk2 hy
      exact stabInv_shakerFwdBody cmp hst h0 k (by omega) y hy
    split_ifs
    · exact ih _ _ hp
    · exact hp

theorem stabInv_bubble_sort_optimized (hst : s ≠ t) (h0 : cmp s t = 0) (n : ℕ)
    (hn : n ≤ len0) (u : SortState α) (hu : StabInv s t len0 u) :
    StabInv s t len0 (bubble_sort_optimized cmp n u) :=
  stabInv_bubbleOptLoop cmp hst h0 n hn (n - 1) 0 u hu

theorem stabInv_shakerNaiveLoop (hsym : ∀ a b, cmp a b = 0 → cmp b a = 0)
    (hst : s ≠ t) (h0 : cmp s t = 0) (n : ℕ) (hn : n ≤ len0) :
    ∀ (rest pass : ℕ) (u : SortState α), StabInv s t len0 u →
      StabInv s t len0 (shakerNaiveLoop cmp n rest pass u) := by
  intro rest
  induction rest with
  | zero => intro _ u hu; exact hu
  | succ rest ih =>
    intro pass u hu
    simp only [shakerNaiveLoop]
    have hp : StabInv s t len0
        (loopUp (shakerFwdBody cmp) (n - pass - 1 - pass) pass (u, false)).1 := by
      apply loopUp_pres_of (fun x : SortState α × Bool => StabInv s t len0 x.1) (n - pass - 1 - pass) pass ?_ (u, false) hu
      intro k y hk1 hk2 hy
      exact stabInv_shakerFwdBody cmp hst h0 k (by omega) y hy
    have hq : StabInv s t len0
        (loopDown (shakerBwdBody cmp) (n - pass - 2 - pass) (n - pass - 2)
          (loopUp (shakerFwdBody cmp) (n - pass - 1 - pass) pass (u, false))).1 := by
      apply loopDown_pres_of (fun x : SortState α × Bool => StabInv s t len0 x.1) (n - pass - 2 - pass) (n - pass - 2) ?_ _ hp
      intro k y hk1 hk2 hy
      exact stabInv_shakerBwdBody cmp hsym hst h0 k (by omega) (by omega) y hy
    split_ifs
    · exact ih _ _ hq
    · exact hq

theorem stabInv_shaker_sort_naive (hsym : ∀ a b, cmp a b = 0 → cmp b a = 0)
    (hst : s ≠ t) (h0 : cmp s t = 0) (n : ℕ) (hn : n ≤ len0) (u : SortState α)
    (hu : StabInv s t len0 u) : StabInv s t len0 (shaker_sort_naive cmp n u) :=
  stabInv_shakerNaiveLoop cmp hsym hst h0 n hn ((n - 1) / 2) 0 u hu

theorem stabInv_shakerOptLoop (hsym : ∀ a b, cmp a b = 0 → cmp b a = 0)
    (hst : s ≠ t) (h0 : cmp s t = 0) :
    ∀ (fuel inicio fim : ℕ) (houve : Bool) (u : SortState α),
      fim < len0 ∨ fim = 0 → StabInv s t len0 u →
      StabInv s t len0 (shakerOptLoop cmp fuel inicio fim houve u) := by
  intro fuel
  induction fuel with
  | zero => intro _ _ _ u _ hu; exact hu
  | succ fuel ih =>
    intro inicio fim houve u hfim hu
    simp only [shakerOptLoop]
    split_ifs with hcond hflag
    · -- forward pass only (no swap happened)
      apply loopUp_pres_of (fun x : SortState α × Bool => StabInv s t len0 x.1) (fim - inicio) inicio ?_ (u, false) hu
      intro k y hk1 hk2 hy
      have hfim' : fim < len0 := by
        rcases hfim with h | h
        · exact h
        · omega
      exact stabInv_shakerFwdBody cmp hst h0 k (by omega) y hy
    · -- forward pass, backward pass, recursion
      have hfim' : fim < len0 := by
        rcases hfim with h | h
        · exact h
        · exfalso; omega
      have hp : StabInv s t len0
          (loopUp (shakerFwdBody cmp) (fim - inicio) inicio (u, false)).1 := by
        apply loopUp_pres_of (fun x : SortState α × Bool => StabInv s t len0 x.1) (fim - inicio) inicio ?_ (u, false) hu
        intro k y hk1 hk2 hy
        exact stabInv_shakerFwdBody cmp hst h0 k (by omega) y hy
      have hq : StabInv s t len0
          (loopDown (shakerBwdBody cmp) (fim - 1 - inicio) (fim - 1)
            ((loopUp (shakerFwdBody cmp) (fim - inicio) inicio (u, false)).1, false)).1 := by
        apply loopDown_pres_of (fun x : SortState α × Bool => StabInv s t len0 x.1)
          (fim - 1 - inicio) (fim - 1) ?_
          ((loopUp (shakerFwdBody cmp) (fim - inicio) inicio (u, false)).1, false) hp
        intro k y hk1 hk2 hy
        exact stabInv_shakerBwdBody cmp hsym hst h0 k (by omega) (by omega) y hy
      exact ih _ _ _ _ (Or.inl (by omega)) hq
    · exact hu

theorem stabInv_shaker_sort_optimized (hsym : ∀ a b, cmp a b = 0 → cmp b a = 0)
    (hst : s ≠ t) (h0 : cmp s t = 0) (n : ℕ) (hn : n ≤ len0) (u : SortState α)
    (hu : StabInv s t len0 u) : StabInv s t len0 (shaker_sort_optimized cmp n u) := by
  apply stabInv_shakerOptLoop cmp hsym hst h0 n 0 (n - 1) true u ?_ hu
  omega

end StabLoops

section StabInsertion

variable (cmp : α → α → Int)

omit [DecidableEq α] in
theorem take_succ_getE {l : List α} {n : ℕ} (h : n < l.length) :
    l.take (n + 1) = l.take n ++ [getE l n] := by
  rw [List.take_succ, List.getElem?_eq_getElem h, getE, List.getD_eq_getElem?_getD,
    List.getElem?_eq_getElem h]
  rfl

omit [DecidableEq α] in
theorem drop_eq_getE_cons {l : List α} {n : ℕ} (h : n < l.length) :
    l.drop n = getE l n :: l.drop (n + 1) := by
  rw [List.drop_eq_getElem_cons h, getE, List.getD_eq_getElem?_getD,
    List.getElem?_eq_getElem h]
  rfl

omit [DecidableEq α] in
theorem setE_append_cons (A : List α) (x v : α) (B : List α) (p : ℕ)
    (hp : A.length = p) : setE (A ++ x :: B) p v = A ++ v :: B := by
  subst hp
  rw [setE, List.set_append]
  simp

omit [DecidableEq α] in
/-- Characterization of the inner shifting loop of both insertion
sorts, started on the original buffer `l` with `key = l[i]`: it shifts
the maximal run of elements strictly greater than `key` (under the
counted comparator) one slot to the right and reports the insertion
position `i - m`.  The statement is generalized over the number `k` of
shifts already performed so the fuel argument (`d = i - k`) is the
induction measure. -/
theorem insertionWhile_spec (key : α) (l : List α) (i : ℕ) (hi : i < l.length) :
    ∀ (d k : ℕ), d + k = i →
      ∀ (u : SortState α),
        u.arr = l.take (i - k + 1) ++ (l.drop (i - k)).take k ++ l.drop (i + 1) →
        (∀ e ∈ (l.drop (i - k)).take k, 0 < cmp e key) →
        ∃ m, k ≤ m ∧ m ≤ i ∧ (∀ e ∈ (l.drop (i - m)).take m, 0 < cmp e key) ∧
          (insertionWhile cmp key d d u).1 = i - m ∧
          (insertionWhile cmp key d d u).2.arr
            = l.take (i - m + 1) ++ (l.drop (i - m)).take m ++ l.drop (i + 1) := by
  intro d
  induction d with
  | zero =>
    intro k hk u hu hM
    obtain rfl : k = i := by omega
    exact ⟨k, Nat.le_refl k, Nat.le_refl k, hM, by simp [insertionWhile],
      by simpa [insertionWhile] using hu⟩
  | succ d ih =>
    intro k hk u hu hM
    have hik : i - k = d + 1 := by omega
    have hd2 : d + 2 ≤ l.length := by omega
    rw [hik] at hu hM
    have hlt1 : d < (l.take (d + 1 + 1)).length := by
      rw [List.length_take]
      exact lt_min (by omega) (by omega)
    have hread : getE u.arr (d + 1 - 1) = getE l d := by
      have h1 : d + 1 - 1 = d := by omega
      have hlt2 : d < (l.take (d + 1 + 1) ++ (l.drop (d + 1)).take k).length := by
        rw [List.length_append]
        exact Nat.lt_of_lt_of_le hlt1 (Nat.le_add_right _ _)
      rw [h1, hu, getE_append_left hlt2, getE_append_left hlt1, getE_take (by omega)]
    simp only [insertionWhile]
    rw [if_pos (by omega : 1 ≤ d + 1)]
    simp only [comparar]
    split_ifs with hguard
    · -- shift branch: one more element moves one slot right
      rw [hread] at hguard
      have hA : (l.take (d + 1)).length = d + 1 := by
        rw [List.length_take]
        exact min_eq_left (by omega)
      have hnews : setE u.arr (d + 1) (getE u.arr (d + 1 - 1))
          = l.take (i - (k + 1) + 1) ++ (l.drop (i - (k + 1))).take (k + 1)
            ++ l.drop (i + 1) := by
        have hik1 : i - (k + 1) = d := by omega
        rw [hread, hu, hik1, take_succ_getE (show d + 1 < l.length by omega),
          drop_eq_getE_cons (show d < l.length by omega), List.take_succ_cons]
        simp only [List.append_assoc, List.cons_append, List.nil_append]
        rw [setE_append_cons _ _ _ _ _ hA]
      have hM' : ∀ e ∈ (l.drop (i - (k + 1))).take (k + 1), 0 < cmp e key := by
        have hik1 : i - (k + 1) = d := by omega
        rw [hik1, drop_eq_getE_cons (show d < l.length by omega), List.take_succ_cons]
        intro e he
        rcases List.mem_cons.mp he with rfl | he2
        · exact hguard
        · exact hM e he2
      obtain ⟨m, hm1, hm2, hm3, hm4, hm5⟩ :=
        ih (k + 1) (by omega)
          { arr := setE u.arr (d + 1) (getE u.arr (d + 1 - 1)),
            comparacoes := u.comparacoes + 1, trocas := u.trocas,
            movimentacoes := u.movimentacoes + 1 } hnews hM'
      exact ⟨m, by omega, hm2, hm3, hm4, hm5⟩
    · -- exit branch: the run ends here
      refine ⟨k, Nat.le_refl k, by omega, ?_, ?_, ?_⟩
      · rw [hik]
        exact hM
      · show d + 1 = i - k
        omega
      · show u.arr = _
        rw [hik]
        exact hu

omit [DecidableEq α] in
/-- Net effect of one outer iteration of both insertion sorts: the key
`arr[i]` moves left past the maximal run `M` of elements strictly
greater than it; everything else keeps its order. -/
theorem insertionBody_spec (i : ℕ) (u : SortState α) (hi : i < u.arr.length) :
    ∃ m, m ≤ i ∧ (∀ e ∈ (u.arr.drop (i - m)).take m, 0 < cmp e (getE u.arr i)) ∧
      (insertionBody cmp i u).arr
        = u.arr.take (i - m) ++ getE u.arr i :: ((u.arr.drop (i - m)).take m
            ++ u.arr.drop (i + 1)) := by
  have h0 : ({ u with movimentacoes := u.movimentacoes + 1 } : SortState α).arr
      = u.arr.take (i - 0 + 1) ++ (u.arr.drop (i - 0)).take 0 ++ u.arr.drop (i + 1) := by
    simp [List.take_append_drop]
  obtain ⟨m, _, hmi, hM, h1, h2⟩ :=
    insertionWhile_spec cmp (getE u.arr i) u.arr i hi i 0 (by omega)
      { u with movimentacoes := u.movimentacoes + 1 } h0 (by simp)
  refine ⟨m, hmi, hM, ?_⟩
  simp only [insertionBody]
  rw [h1, h2, take_succ_getE (show i - m < u.arr.length by omega)]
  simp only [List.append_assoc, List.cons_append, List.nil_append]
  rw [setE_append_cons _ _ _ _ _ (show (u.arr.take (i - m)).length = i - m from by
    rw [List.length_take]; exact min_eq_left (by omega))]

/-- Moving the key left past a run of strictly greater elements keeps
the tracked pair in order: a tracked element inside the run next to the
tracked key would have to compare both strictly greater and equal. -/
theorem pairFilter_insert_move {s t : α} (hsym : ∀ a b, cmp a b = 0 → cmp b a = 0)
    (hst : s ≠ t) (h0 : cmp s t = 0) (T M D : List α) (key : α)
    (hM : ∀ e ∈ M, 0 < cmp e key)
    (hcur : pairFilter s t (T ++ M ++ key :: D) = [s, t]) :
    pairFilter s t (T ++ key :: (M ++ D)) = [s, t] := by
  by_cases hkey : key = s ∨ key = t
  · by_cases hMf : List.filter (fun x => decide (x = s ∨ x = t)) M = []
    · simp only [pairFilter, List.filter_append, List.filter_cons, hMf,
        if_pos (decide_eq_true hkey)] at hcur ⊢
      simpa [List.append_assoc] using hcur
    · exfalso
      obtain ⟨e, he⟩ := List.exists_mem_of_ne_nil _ hMf
      have heM := List.mem_filter.mp he
      have hegt : 0 < cmp e key := hM e heM.1
      simp only [pairFilter, List.filter_append, List.filter_cons,
        if_pos (decide_eq_true hkey)] at hcur
      have hL := congrArg List.length hcur
      simp only [List.length_append, List.length_cons, List.length_nil] at hL
      have hfM1 : (List.filter (fun x => decide (x = s ∨ x = t)) M).length = 1 := by
        have := List.length_pos_of_mem he
        omega
      obtain ⟨a, ha⟩ := List.length_eq_one.mp hfM1
      have hae : e = a := by
        rw [ha] at he
        simpa using he
      have hTnil : List.filter (fun x => decide (x = s ∨ x = t)) T = [] :=
        List.eq_nil_of_length_eq_zero (by omega)
      have hDnil : List.filter (fun x => decide (x = s ∨ x = t)) D = [] :=
        List.eq_nil_of_length_eq_zero (by omega)
      rw [hTnil, ha, hDnil] at hcur
      simp only [List.nil_append, List.cons_append, List.cons.injEq, and_true] at hcur
      rw [hae, hcur.1, hcur.2] at hegt
      omega
  · have hf : (decide (key = s ∨ key = t)) = false := decide_eq_false hkey
    simp only [pairFilter, List.filter_append, List.filter_cons, hf] at hcur ⊢
    simpa [List.append_assoc] using hcur

/-- One outer insertion-sort iteration preserves the stability
invariant. -/
theorem stabInv_insertionBody {s t : α} {len0 : ℕ}
    (hsym : ∀ a b, cmp a b = 0 → cmp b a = 0) (hst : s ≠ t) (h0 : cmp s t = 0)
    (i : ℕ) (hi : i < len0) (u : SortState α) (hu : StabInv s t len0 u) :
    StabInv s t len0 (insertionBody cmp i u) := by
  obtain ⟨hlen, hflt⟩ := hu
  obtain ⟨m, hmi, hM, harr⟩ := insertionBody_spec cmp i u (by omega)
  have hdec : u.arr = u.arr.take (i - m) ++ (u.arr.drop (i - m)).take m
      ++ getE u.arr i :: u.arr.drop (i + 1) := by
    have h1 : u.arr.take (i - m) ++ (u.arr.drop (i - m)).take m = u.arr.take i := by
      rw [← List.take_add]
      congr 1
      omega
    rw [h1]
    conv_lhs => rw [← List.take_append_drop i u.arr]
    rw [drop_eq_getE_cons (show i < u.arr.length by omega)]
  constructor
  · have hL1 := congrArg List.length hdec
    have hL2 := congrArg List.length harr
    simp only [List.length_append, List.length_cons] at hL1 hL2
    rw [hL2]
    omega
  · rw [harr]
    apply pairFilter_insert_move cmp hsym hst h0 _ _ _ _ hM
    rw [← hdec]
    exact hflt

/-- Both insertion sorts preserve the stability invariant. -/
theorem stabInv_insertion_loop {s t : α} {len0 : ℕ}
    (hsym : ∀ a b, cmp a b = 0 → cmp b a = 0) (hst : s ≠ t) (h0 : cmp s t = 0)
    (n : ℕ) (hn : n ≤ len0) (u : SortState α) (hu : StabInv s t len0 u) :
    StabInv s t len0 (loopUp (insertionBody cmp) (n - 1) 1 u) := by
  apply loopUp_pres_of (StabInv s t len0) (n - 1) 1 ?_ u hu
  intro k y hk1 hk2 hy
  exact stabInv_insertionBody cmp hsym hst h0 k (by omega) y hy

end StabInsertion

/-- C7: for insertion, bubble and shaker sort in both the naive and the
optimized variant, any two cmp-equal elements keep their relative
order.  The tracked pair is a pair of distinct element values `s`, `t`
with `cmp s t = 0`, each occurring exactly once in the buffer with `s`
first (`pairFilter s t l = [s, t]`); the comparator is assumed to be
equality-symmetric (`cmp a b = 0 → cmp b a = 0`), which every total
order comparator satisfies. -/
theorem claim7_stability (cmp : α → α → Int)
    (hsym : ∀ a b, cmp a b = 0 → cmp b a = 0)
    (n : ℕ) (l : List α) (hn : n ≤ l.length)
    (s t : α) (h0 : cmp s t = 0) (hst : s ≠ t)
    (horder : pairFilter s t l = [s, t]) :
    pairFilter s t (insertion_sort_naive cmp n ⟨l, 0, 0, 0⟩).arr = [s, t] ∧
    pairFilter s t (insertion_sort_optimized cmp n ⟨l, 0, 0, 0⟩).arr = [s, t] ∧
    pairFilter s t (bubble_sort_naive cmp n ⟨l, 0, 0, 0⟩).arr = [s, t] ∧
    pairFilter s t (bubble_sort_optimized cmp n ⟨l, 0, 0, 0⟩).arr = [s, t] ∧
    pairFilter s t (shaker_sort_naive cmp n ⟨l, 0, 0, 0⟩).arr = [s, t] ∧
    pairFilter s t (shaker_sort_optimized cmp n ⟨l, 0, 0, 0⟩).arr = [s, t] := by
  have hu : StabInv s t l.length (⟨l, 0, 0, 0⟩ : SortState α) := ⟨rfl, horder⟩
  exact ⟨(stabInv_insertion_loop cmp hsym hst h0 n hn _ hu).2,
    (stabInv_insertion_loop cmp hsym hst h0 n hn _ hu).2,
    (stabInv_bubble_sort_naive cmp hst h0 n hn _ hu).2,
    (stabInv_bubble_sort_optimized cmp hst h0 n hn _ hu).2,
    (stabInv_shaker_sort_naive cmp hsym hst h0 n hn _ hu).2,
    (stabInv_shaker_sort_optimized cmp hsym hst h0 n hn _ hu).2⟩

/-- Witness for C7: the specification scenario `[5,3,3,1,4]` with the
two equal keys `3` tagged by their original positions and compared only
on the key. -/
theorem claim7_stability_witness :
    pairFilter ((3 : Int), (1 : ℕ)) ((3 : Int), (2 : ℕ))
      (insertion_sort_naive (fun x y : Int × ℕ => cmpInt x.1 y.1) 5
        ⟨[((5 : Int), (0 : ℕ)), (3, 1), (3, 2), (1, 3), (4, 4)], 0, 0, 0⟩).arr
      = [((3 : Int), (1 : ℕ)), ((3 : Int), (2 : ℕ))] ∧
    pairFilter ((3 : Int), (1 : ℕ)) ((3 : Int), (2 : ℕ))
      (insertion_sort_optimized (fun x y : Int × ℕ => cmpInt x.1 y.1) 5
        ⟨[((5 : Int), (0 : ℕ)), (3, 1), (3, 2), (1, 3), (4, 4)], 0, 0, 0⟩).arr
      = [((3 : Int), (1 : ℕ)), ((3 : Int), (2 : ℕ))] ∧
    pairFilter ((3 : Int), (1 : ℕ)) ((3 : Int), (2 : ℕ))
      (bubble_sort_naive (fun x y : Int × ℕ => cmpInt x.1 y.1) 5
        ⟨[((5 : Int), (0 : ℕ)), (3, 1), (3, 2), (1, 3), (4, 4)], 0, 0, 0⟩).arr
      = [((3 : Int), (1 : ℕ)), ((3 : Int), (2 : ℕ))] ∧
    pairFilter ((3 : Int), (1 : ℕ)) ((3 : Int), (2 : ℕ))
      (bubble_sort_optimized (fun x y : Int × ℕ => cmpInt x.1 y.1) 5
        ⟨[((5 : Int), (0 : ℕ)), (3, 1), (3, 2), (1, 3), (4, 4)], 0, 0, 0⟩).arr
      = [((3 : Int), (1 : ℕ)), ((3 : Int), (2 : ℕ))] ∧
    pairFilter ((3 : Int), (1 : ℕ)) ((3 : Int), (2 : ℕ))
      (shaker_sort_naive (fun x y : Int × ℕ => cmpInt x.1 y.1) 5
        ⟨[((5 : Int), (0 : ℕ)), (3, 1), (3, 2), (1, 3), (4, 4)], 0, 0, 0⟩).arr
      = [((3 : Int), (1 : ℕ)), ((3 : Int), (2 : ℕ))] ∧
    pairFilter ((3 : Int), (1 : ℕ)) ((3 : Int), (2 : ℕ))
      (shaker_sort_optimized (fun x y : Int × ℕ => cmpInt x.1 y.1) 5
        ⟨[((5 : Int), (0 : ℕ)), (3, 1), (3, 2), (1, 3), (4, 4)], 0, 0, 0⟩).arr
      = [((3 : Int), (1 : ℕ)), ((3 : Int), (2 : ℕ))] :=
  claim7_stability (fun x y : Int × ℕ => cmpInt x.1 y.1)
    (by
      intro a b h
      simp only [cmpInt] at h ⊢
      split_ifs at h ⊢ <;> omega)
    5 [((5 : Int), (0 : ℕ)), (3, 1), (3, 2), (1, 3), (4, 4)] (by decide)
    (3, 1) (3, 2) (by decide) (by decide) (by decide)



end Algoritmos
